import Mathlib

/-!
# gin-http-method-override: the X-HTTP-Method-Override filter

A shallow embedding of `middleware.go`.  The filter `overrideMethod` is translated
statement by statement.  What it calls in the Go standard library (`strings.ToUpper`,
`http.Header.Get`) and in gin (`Context.Abort`, `Engine.HandleContext`) is not part
of the repository; it is embedded next to the filter, each definition naming the
Go function it stands for.  In the claims about the filter alone the dispatcher is
a parameter; the claims about a whole request use the model of gin's router.

Go strings are Lean strings (the byte strings that are valid UTF-8), a nil pointer
or nil map is `none`, and a dereference is the fallible `deref`, so that a nil
pointer dereference is a visible `Panic`.
-/

set_option autoImplicit false

namespace GinHTTPMethodOverride

/-! ## Go runtime -/

/-- A run-time panic of the Go program. -/
inductive Panic where
  | nilPointerDereference
  deriving DecidableEq, Repr

/-- Reading through a pointer: a nil pointer panics. -/
def deref {α : Type} : Option α → Except Panic α
  | none => .error .nilPointerDereference
  | some a => .ok a

/-! ## package strings / unicode -/

namespace strings

/-- Modelled from the spec: the ASCII case step of Go's `strings.ToUpper` and
`unicode.ToUpper`, `if 'a' <= c && c <= 'z' { c -= 'a' - 'A' }`; the Go library is
not among the repository's sources. -/
def upperASCII (c : Char) : Char :=
  if 'a' ≤ c ∧ c ≤ 'z' then Char.ofNat (c.toNat - 32) else c

/-- Modelled from the spec: the ASCII case step of Go's
`textproto.canonicalMIMEHeaderKey`, `if 'A' <= c && c <= 'Z' { c += 'a' - 'A' }`. -/
def lowerASCII (c : Char) : Char :=
  if 'A' ≤ c ∧ c ≤ 'Z' then Char.ofNat (c.toNat + 32) else c

/-- Modelled from the spec: Go's `unicode.ToUpper`.  ASCII runes are mapped directly
(`if r <= MaxASCII`), every other rune goes through the Unicode table
`unicode.CaseRanges`.  The table is data of the Go distribution and is the
parameter `caseRanges`: every theorem holds for every table. -/
def unicodeToUpper (caseRanges : Char → Char) (r : Char) : Char :=
  if r.toNat ≤ 0x7F then upperASCII r else caseRanges r

/-- Modelled from the spec: the uppercasing of the header value ("Normalize the
header value to uppercase"), Go's `strings.ToUpper`, which is not among the
repository's sources.  An all-ASCII string without lower-case letters is returned
as it is, an all-ASCII string is mapped byte by byte, any other string is mapped
rune by rune with `unicode.ToUpper`. -/
def ToUpper (caseRanges : Char → Char) (s : String) : String :=
  let isASCII := s.data.all (fun c => decide (c.toNat < 0x80))
  let hasLower := s.data.any (fun c => decide ('a' ≤ c ∧ c ≤ 'z'))
  if isASCII then
    if !hasLower then s else ⟨s.data.map upperASCII⟩
  else ⟨s.data.map (unicodeToUpper caseRanges)⟩

end strings

/-! ## package net/textproto and net/http -/

namespace textproto

/-- Modelled from the spec: Go's `validHeaderFieldByte`, the token characters of
RFC 7230: letters, digits and the fifteen punctuation marks listed by their code. -/
def validHeaderFieldByte (c : Char) : Bool :=
  c.isAlphanum ||
    [33, 35, 36, 37, 38, 39, 42, 43, 45, 46, 94, 95, 96, 124, 126].contains c.toNat

/-- Modelled from the spec: the canonicalising loop of Go's `canonicalMIMEHeaderKey`:
the first letter and every letter after a dash become upper case, all other
letters lower case. -/
def canonicalLoop : Bool → List Char → List Char
  | _, [] => []
  | upper, c :: cs =>
    let c1 :=
      if upper && decide ('a' ≤ c ∧ c ≤ 'z') then strings.upperASCII c
      else if !upper && decide ('A' ≤ c ∧ c ≤ 'Z') then strings.lowerASCII c
      else c
    c1 :: canonicalLoop (c1 == '-') cs

/-- Modelled from the spec: Go's `textproto.CanonicalMIMEHeaderKey`: a key made of
token characters only is canonicalised, any other key is returned unchanged. -/
def CanonicalMIMEHeaderKey (s : String) : String :=
  if s.data.all validHeaderFieldByte then ⟨canonicalLoop true s.data⟩ else s

end textproto

namespace http

/-- The constant `http.MethodGet`. -/
abbrev MethodGet : String := "GET"
/-- The constant `http.MethodHead`. -/
abbrev MethodHead : String := "HEAD"
/-- The constant `http.MethodPost`. -/
abbrev MethodPost : String := "POST"
/-- The constant `http.MethodPut`. -/
abbrev MethodPut : String := "PUT"
/-- The constant `http.MethodPatch`. -/
abbrev MethodPatch : String := "PATCH"
/-- The constant `http.MethodDelete`. -/
abbrev MethodDelete : String := "DELETE"
/-- The constant `http.MethodConnect`. -/
abbrev MethodConnect : String := "CONNECT"
/-- The constant `http.MethodOptions`. -/
abbrev MethodOptions : String := "OPTIONS"
/-- The constant `http.MethodTrace`. -/
abbrev MethodTrace : String := "TRACE"

/-- Modelled from the spec: the header collection, Go's `http.Header`, a
`map[string][]string`: the first pair with a given key is the map's entry for that
key. -/
abbrev Header := List (String × List String)

/-- Modelled from the spec: the header lookup, Go's `Header.Get`, which is not
among the repository's sources: the first value stored under the canonical form
of `key`, or the empty string; a nil map has no values. -/
def Header.Get (h : Option Header) (key : String) : String :=
  match h with
  | none => ""
  | some m =>
    match m.lookup (textproto.CanonicalMIMEHeaderKey key) with
    | some (v :: _) => v
    | _ => ""

/-- Modelled from the spec: Go's `Header.Set`, used by the tests: the entry under
the canonical form of `key` becomes the single value `value`. -/
def Header.Set (m : Header) (key value : String) : Header :=
  (textproto.CanonicalMIMEHeaderKey key, [value]) ::
    m.filter (fun kv => kv.1 != textproto.CanonicalMIMEHeaderKey key)

/-- Modelled from the spec: the request, Go's `http.Request`, with the fields the
filter, the router and the test handlers read: the method, the URL (as the text
`URL.String()` gives) and the header map (nil is `none`). -/
structure Request where
  Method : String
  URL : String
  Header : Option http.Header
  deriving DecidableEq, Repr

/-- Modelled from the spec: the field `URL.Path` of a request whose URL is written
without escapes and without a fragment: the part of the URL before the query. -/
def urlPath (rawurl : String) : String :=
  ⟨rawurl.data.takeWhile (fun ch => ch != '?')⟩

/-- Modelled from the spec: the rest of such a URL, the query with its question
mark, or nothing. -/
def urlQuery (rawurl : String) : String :=
  ⟨rawurl.data.dropWhile (fun ch => ch != '?')⟩

end http

/-! ## package gin: the context -/

namespace gin

/-- Modelled from the spec: gin's constant `abortIndex`, `math.MaxInt8 >> 1`. -/
abbrev abortIndex : Int := 63

/-- Modelled from the spec: gin's `responseWriter`, the pending status and the
written size (`-1` is `noWritten`), with what has reached the underlying
`http.ResponseWriter`: the status line, once sent, and the body bytes. -/
structure responseWriter where
  status : Nat
  size : Int
  sentStatus : Option Nat
  sentBody : String
  deriving DecidableEq, Repr

/-- Modelled from the spec: the per-request context, gin's `Context`, with the
fields in play: the request pointer (nil is `none`), the response writer, the
position in the handler chain and the per-request keys. -/
structure Context where
  Request : Option http.Request
  Writer : responseWriter
  index : Int
  Keys : List (String × String)
  deriving DecidableEq, Repr

/-- Modelled from the spec: the abort signal, gin's `Context.Abort`,
`c.index = abortIndex`. -/
def Context.Abort (c : Context) : Context :=
  { c with index := abortIndex }

/-- Modelled from the spec: gin's `Context.IsAborted`, `c.index >= abortIndex`. -/
def Context.IsAborted (c : Context) : Bool :=
  decide (abortIndex ≤ c.index)

/-- The handle `r *gin.Engine` as the filter uses it: the one method the filter
calls, `HandleContext`, which works on the context in place.  In the claims about
the filter the dispatcher is this parameter. -/
structure Engine where
  HandleContext : Context → Context

end gin

/-! ## middleware.go -/

/-- The constant `XHTTPMethodOverrideHeader`. -/
abbrev XHTTPMethodOverrideHeader : String := "X-HTTP-Method-Override"

/-- What the filter does to its surroundings, in program order: a write to
`c.Request.Method`, a call of `c.Abort()`, a call of `r.HandleContext(c)` (with the
context as it is handed over). -/
inductive Call where
  | setMethod (method : String)
  | Abort
  | HandleContext (c : gin.Context)
  deriving DecidableEq, Repr

/-- The `switch strings.ToUpper(method)` of `overrideMethod`: the value assigned to
`c.Request.Method` by the matching case, `none` for the `default` case. -/
def switchMethod (upper : String) : Option String :=
  if upper = http.MethodGet then some http.MethodGet
  else if upper = http.MethodPost then some http.MethodPost
  else if upper = http.MethodPatch then some http.MethodPatch
  else if upper = http.MethodPut then some http.MethodPut
  else if upper = http.MethodDelete then some http.MethodDelete
  else if upper = http.MethodHead then some http.MethodHead
  else if upper = http.MethodOptions then some http.MethodOptions
  else if upper = http.MethodConnect then some http.MethodConnect
  else if upper = http.MethodTrace then some http.MethodTrace
  else none

/-- The closure returned by `overrideMethod(r)`, run on the context `c`.  The result
is the context after the call together with the calls made, or a panic. -/
def overrideMethod (caseRanges : Char → Char) (r : gin.Engine) (c : gin.Context) :
    Except Panic (gin.Context × List Call) := do
  -- if c.Request == nil || c.Request.Header == nil { return }
  if c.Request.isNone then return (c, [])
  if (← deref c.Request).Header.isNone then return (c, [])
  -- ignores if the request method is not POST
  if (← deref c.Request).Method ≠ http.MethodPost then return (c, [])
  let method := http.Header.Get (← deref c.Request).Header XHTTPMethodOverrideHeader
  if method = "" then return (c, [])
  -- ignores when the overriding method is equal to the request method
  if strings.ToUpper caseRanges method = (← deref c.Request).Method then return (c, [])
  match switchMethod (strings.ToUpper caseRanges method) with
  | none =>
    -- ignore the method value, treated as the original method
    return (c, [])
  | some m =>
    let req ← deref c.Request
    let c1 : gin.Context := { c with Request := some { req with Method := m } }
    -- the current request is cancelled and gin.Engine handles it again
    let c2 := c1.Abort
    return (r.HandleContext c2, [Call.setMethod m, Call.Abort, Call.HandleContext c2])

/-- The constructor `New`: `return overrideMethod(r)`. -/
def New (caseRanges : Char → Char) (r : gin.Engine) (c : gin.Context) :
    Except Panic (gin.Context × List Call) :=
  overrideMethod caseRanges r c

/-! ## package gin: the dispatcher

The router of gin is not part of this repository.  The definitions of this section
follow gin's `context.go`, `response_writer.go` and `gin.go` for the functions on
the path of a request through a router that has the filter installed first.
-/

namespace gin

/-- Modelled from the spec: the response writer of the dispatcher, gin's
`responseWriter.reset`, which is not among the repository's sources.  A fresh
writer has the pending status 200 (`defaultStatus`) and nothing written
(`size = noWritten`). -/
def responseWriter.reset : responseWriter :=
  { status := 200, size := -1, sentStatus := none, sentBody := "" }

/-- Modelled from the spec: gin's `responseWriter.Written`, `w.size != noWritten`. -/
def responseWriter.Written (w : responseWriter) : Bool :=
  w.size != -1

/-- Modelled from the spec: gin's `responseWriter.WriteHeader`, which only records
the status: `if code > 0 && w.status != code { if w.Written() { return }; w.status = code }`. -/
def responseWriter.WriteHeader (w : responseWriter) (code : Nat) : responseWriter :=
  if 0 < code ∧ w.status ≠ code then
    if w.Written then w else { w with status := code }
  else w

/-- Modelled from the spec: gin's `responseWriter.WriteHeaderNow`,
`if !w.Written() { w.size = 0; w.ResponseWriter.WriteHeader(w.status) }`; the
underlying writer keeps the first status line it is given. -/
def responseWriter.WriteHeaderNow (w : responseWriter) : responseWriter :=
  if !w.Written then
    { w with size := 0, sentStatus := some (w.sentStatus.getD w.status) }
  else w

/-- Modelled from the spec: gin's `responseWriter.Write`,
`w.WriteHeaderNow(); n := w.ResponseWriter.Write(data); w.size += n`; the
underlying writer sends status 200 first when no status line went out before. -/
def responseWriter.Write (w : responseWriter) (data : String) : responseWriter :=
  let w1 := w.WriteHeaderNow
  { w1 with
    size := w1.size + data.utf8ByteSize
    sentStatus := some (w1.sentStatus.getD 200)
    sentBody := w1.sentBody ++ data }

/-- Modelled from the spec: gin's `Context.reset` on the fields of `Context`:
`c.index = -1`, `c.Keys = nil`; the request and the writer stay. -/
def Context.reset (c : Context) : Context :=
  { c with index := -1, Keys := [] }

/-- Modelled from the spec: gin's `Context.Set`, `c.Keys[key] = value`. -/
def Context.Set (c : Context) (key value : String) : Context :=
  { c with Keys := (key, value) :: c.Keys.filter (fun kv => kv.1 != key) }

/-- Modelled from the spec: gin's `Context.Get`, `value, exists = c.Keys[key]`. -/
def Context.Get (c : Context) (key : String) : Option String :=
  c.Keys.lookup key

/-- Modelled from the spec: gin's `Context.Status`, `c.Writer.WriteHeader(code)`. -/
def Context.Status (c : Context) (code : Nat) : Context :=
  { c with Writer := c.Writer.WriteHeader code }

/-- Modelled from the spec: a handler's `c.Writer.Write(data)`. -/
def Context.Write (c : Context) (data : String) : Context :=
  { c with Writer := c.Writer.Write data }

/-- Modelled from the spec: gin's `Context.JSON(code, obj)` for a status that allows
a body, `c.Status(code)` followed by the write of the encoded object `body`. -/
def Context.JSON (c : Context) (code : Nat) (body : String) : Context :=
  (c.Status code).Write body

/-- Modelled from the spec: gin's `HandlerFunc`, `func(*Context)`: a handler works on
the context in place. -/
abbrev HandlerFunc := Context → Context

/-- Modelled from the spec: the dispatcher's handler chain, gin's `Context.Next`,
`c.index++; for c.index < len(c.handlers) { c.handlers[c.index](c); c.index++ }`,
for handlers that do not call `Next` themselves: the handlers run in order, and
none runs once the chain is aborted (`Abort` puts the index past every chain). -/
def Context.Next : List HandlerFunc → Context → Context
  | [], c => c
  | h :: hs, c => if c.IsAborted then c else Context.Next hs (h c)

/-- Modelled from the spec: gin's constant `default404Body`. -/
abbrev default404Body : String := "404 page not found"

/-- Modelled from the spec: the dispatcher's not-found response, gin's `serveError`:
`c.writermem.status = code; c.Next()`, then, when nothing is written, the default
message if the status is still `code`, else the header alone. -/
def serveError (handlers : List HandlerFunc) (code : Nat) (defaultMessage : String)
    (c : Context) : Context :=
  let c1 : Context := { c with Writer := { c.Writer with status := code } }
  let c2 := Context.Next handlers c1
  if c2.Writer.Written then c2
  else if c2.Writer.status = code then c2.Write defaultMessage
  else { c2 with Writer := c2.Writer.WriteHeaderNow }

/-- Modelled from the spec: the dispatcher's re-resolution entry point, gin's
`Engine.HandleContext`, given the routing function `handleHTTPRequest`:
`oldIndexValue := c.index; c.reset(); engine.handleHTTPRequest(c);
c.index = oldIndexValue`. -/
def HandleContext (handleHTTPRequest : Context → Context) (c : Context) : Context :=
  let oldIndexValue := c.index
  let c1 := handleHTTPRequest c.reset
  { c1 with index := oldIndexValue }

/-- Modelled from the spec: what gin's tree lookup `node.getValue` returns: the
handlers registered for the path, if any, and the trailing-slash recommendation
`tsr`. -/
structure nodeValue where
  handlers : Option (List HandlerFunc)
  tsr : Bool

/-- Modelled from the spec: a dispatcher with gin's default options
(`HandleMethodNotAllowed` and `RedirectFixedPath` off), set up as in the tests:
`router.Use(before...)`, `router.Use(New(router))`, `router.Use(Handlers...)`, then
the routes.  The spec installs the filter as the outermost step, which is
`before = []`.  `getValue method path` is the lookup of the path in the tree of
the method (a method without a tree has no handlers and no recommendation);
`noRoute` are the handlers of `router.NoRoute`; `RedirectTrailingSlash` is gin's
option of that name and `redirect` its action, gin's `redirectTrailingSlash`.  The
two middlewares of `gin.Default()`, which log and recover and touch neither
request, keys nor response, are left out. -/
structure Router where
  before : List HandlerFunc
  Handlers : List HandlerFunc
  getValue : String → String → nodeValue
  noRoute : List HandlerFunc
  RedirectTrailingSlash : Bool
  redirect : Context → Context

/-- The three exits of gin's `handleHTTPRequest`: the handlers of the matched route
run, the request is redirected to the path with the trailing slash toggled, or
the not-found handlers run. -/
inductive Route where
  | found (handlers : List HandlerFunc)
  | redirect
  | notFound

/-- Modelled from the spec: the decision of gin's `handleHTTPRequest` for a method
and a path: `if value.handlers != nil` the route is found; otherwise
`if httpMethod != http.MethodConnect && rPath != "/"` and
`value.tsr && engine.RedirectTrailingSlash` the request is redirected; otherwise
nothing is found. -/
def Router.route (e : Router) (method path : String) : Route :=
  match (e.getValue method path).handlers with
  | some handlers => .found handlers
  | none =>
    if method ≠ http.MethodConnect ∧ path ≠ "/" ∧
        (e.getValue method path).tsr = true ∧ e.RedirectTrailingSlash = true then .redirect
    else .notFound

/-- Modelled from the spec: gin's `redirectTrailingSlash` and `redirectRequest` for a
request without an `X-Forwarded-Prefix` header whose URL is in clean form and
needs no escaping: the slash at the end of the path is toggled
(`req.URL.Path = p + "/"`, or `p[:length-1]` when `p` is longer than one character
and ends in a slash), and `http.Redirect` answers 301 to a GET request, with the
short HTML body, and 307 to any other.  The `Location` header is not part of the
writer model. -/
def redirectTrailingSlash (c : Context) : Context :=
  match c.Request with
  | none => c
  | some req =>
    let p := (http.urlPath req.URL).data
    let p1 : List Char :=
      if 1 < p.length ∧ p.getLast? = some '/' then p.dropLast else p ++ ['/']
    let rURL : String := ⟨p1⟩ ++ http.urlQuery req.URL
    let code : Nat := if req.Method = http.MethodGet then 301 else 307
    let c1 : Context := { c with Request := some { req with URL := rURL } }
    let c2 := c1.Status code
    if req.Method = http.MethodGet then
      c2.Write ("<a href=\"" ++ rURL ++ "\">Moved Permanently</a>.\n\n")
    else c2

/-- Modelled from the spec: the lookup in a tree that holds the static routes
`routes` (method and path, with the handlers given to `router.Handle`).  The
trailing-slash recommendation is made when the path with its last slash toggled
is registered for the method; gin's tree makes it in a few more cases when routes
share a prefix. -/
def routeTable (routes : List ((String × String) × List HandlerFunc))
    (method path : String) : nodeValue :=
  { handlers := routes.lookup (method, path)
    tsr :=
      (routes.lookup (method,
        if 1 < path.data.length ∧ path.data.getLast? = some '/' then ⟨path.data.dropLast⟩
        else path ++ "/")).isSome }

end gin

/-- The filter as an element of a handler chain: the handler `New(router)`.  A
handler returns nothing, so the list of calls is dropped; a panic would leave the
context as it was. -/
def filterHandler (caseRanges : Char → Char) (r : gin.Engine) : gin.HandlerFunc :=
  fun c =>
    match New caseRanges r c with
    | .ok (c1, _) => c1
    | .error _ => c

namespace gin

/-- Modelled from the spec: the dispatcher's route resolution and handler execution,
gin's `Engine.handleHTTPRequest`.  On a found route the chain runs (the group
handlers, among them the filter, then the route's handlers) and the header is
flushed; on a trailing-slash recommendation the request is redirected and the
header flushed, and no handler runs; otherwise the not-found chain runs through
`serveError`.  `depth` bounds the nesting of `HandleContext` calls; at depth 0 no
dispatch takes place, and depth 2 is enough for every request when the filter is
installed first (`ServeHTTP_depth`).  A context without a request, on which gin
would panic, is left as it is. -/
def Router.handleHTTPRequest (caseRanges : Char → Char) (e : Router) :
    Nat → Context → Context
  | 0, c => c
  | depth + 1, c =>
    let r : Engine := ⟨HandleContext (Router.handleHTTPRequest caseRanges e depth)⟩
    let filter := filterHandler caseRanges r
    match c.Request with
    | none => c
    | some req =>
      match e.route req.Method (http.urlPath req.URL) with
      | .found handlers =>
        let c1 := Context.Next (e.before ++ filter :: (e.Handlers ++ handlers)) c
        { c1 with Writer := c1.Writer.WriteHeaderNow }
      | .redirect =>
        let c1 := e.redirect c
        { c1 with Writer := c1.Writer.WriteHeaderNow }
      | .notFound =>
        serveError (e.before ++ filter :: (e.Handlers ++ e.noRoute)) 404 default404Body c

/-- Modelled from the spec: the dispatcher's entry point for a request from the
network, gin's `Engine.ServeHTTP`: `c.writermem.reset(w); c.Request = req;
c.reset(); engine.handleHTTPRequest(c)`.  The result is the context at the end,
whose writer holds the response. -/
def Router.ServeHTTP (caseRanges : Char → Char) (e : Router) (depth : Nat)
    (req : http.Request) : Context :=
  e.handleHTTPRequest caseRanges depth
    { Request := some req, Writer := responseWriter.reset, index := -1, Keys := [] }

end gin

/-- What a dispatch leaves behind for the client and the handlers: the response
writer, the request and the keys.  The position in the chain is left out: it is
gin's bookkeeping, counted up by `Next`. -/
def outcome (c : gin.Context) :
    gin.responseWriter × Option http.Request × List (String × String) :=
  (c.Writer, c.Request, c.Keys)

/-! ## Requests of the tests -/

/-- The request each test builds: `http.NewRequest(method, endpoint, nil)` with
`request.Header = http.Header{}` and `request.Header.Set(XHTTPMethodOverrideHeader,
override)`. -/
def testRequest (method endpoint override : String) : http.Request :=
  { Method := method
    URL := endpoint
    Header := some (http.Header.Set [] XHTTPMethodOverrideHeader override) }

/-- The context gin hands to the first handler of a chain for the request `req`. -/
def testContext (req : http.Request) : gin.Context :=
  { Request := some req, Writer := gin.responseWriter.reset, index := -1, Keys := [] }

/-- An engine whose `HandleContext` marks the context it was given: it attaches the
method it saw under the key `"handled"`. -/
def markingEngine : gin.Engine :=
  ⟨fun c => c.Set "handled" ((c.Request.map (fun q => q.Method)).getD "")⟩

/-! ## Routers of the tests -/

/-- The text `encoding/json` produces for an object of string fields whose values
need no escaping. -/
def jsonObject (fields : List (String × String)) : String :=
  "\x7b" ++ ",".intercalate (fields.map fun kv => "\"" ++ kv.1 ++ "\":\"" ++ kv.2 ++ "\"") ++
    "\x7d"

/-- The handler of `TestNew/SameEndpointWithDifferentMethod`: it answers 200 with
the URL, the method and the override header it sees. -/
def echoHandler : gin.HandlerFunc := fun c =>
  match c.Request with
  | none => c
  | some req =>
    c.JSON 200 (jsonObject [("endpoint", req.URL), ("method", req.Method),
      ("override", http.Header.Get req.Header XHTTPMethodOverrideHeader)])

/-- The middleware `newMiddlewares` of `TestNew/MiddlewaresSideEffects`:
`c.Set("test_key", "test")`. -/
def newMiddlewares : gin.HandlerFunc := fun c => c.Set "test_key" "test"

/-- The handler of `TestNew/MiddlewaresSideEffects`: it answers 200 with the value
under "test_key", the method and the override header it sees. -/
def keyHandler : gin.HandlerFunc := fun c =>
  match c.Request with
  | none => c
  | some req =>
    c.JSON 200 (jsonObject [("key", (c.Get "test_key").getD ""), ("method", req.Method),
      ("override", http.Header.Get req.Header XHTTPMethodOverrideHeader)])

/-- The router of `TestNew/SameEndpointWithDifferentMethod`: the filter, then
`/test` registered for each of the nine methods. -/
def sameEndpointRouter : gin.Router :=
  { before := []
    Handlers := []
    getValue := gin.routeTable ([http.MethodGet, http.MethodPost, http.MethodPatch,
      http.MethodPut, http.MethodDelete, http.MethodHead, http.MethodOptions,
      http.MethodConnect, http.MethodTrace].map fun m => ((m, "/test"), [echoHandler]))
    noRoute := []
    RedirectTrailingSlash := true
    redirect := gin.redirectTrailingSlash }

/-- The router of `TestNew/MiddlewaresSideEffects`: the filter, then `newMiddlewares`,
then one endpoint per method. -/
def sideEffectsRouter : gin.Router :=
  { before := []
    Handlers := [newMiddlewares]
    getValue := gin.routeTable
      [((http.MethodGet, "/get"), [keyHandler]), ((http.MethodPost, "/post"), [keyHandler]),
        ((http.MethodPatch, "/patch"), [keyHandler]), ((http.MethodPut, "/put"), [keyHandler]),
        ((http.MethodDelete, "/delete"), [keyHandler]), ((http.MethodHead, "/head"), [keyHandler]),
        ((http.MethodOptions, "/options"), [keyHandler]),
        ((http.MethodConnect, "/connect"), [keyHandler]),
        ((http.MethodTrace, "/trace"), [keyHandler])]
    noRoute := []
    RedirectTrailingSlash := true
    redirect := gin.redirectTrailingSlash }

/-- A router with the filter and one route, `DELETE /widgets`, whose handler writes
its body without setting a status: `c.Writer.Write([]byte("ok"))`. -/
def widgetsRouter : gin.Router :=
  { before := []
    Handlers := []
    getValue := gin.routeTable [((http.MethodDelete, "/widgets"), [fun c => c.Write "ok"])]
    noRoute := []
    RedirectTrailingSlash := true
    redirect := gin.redirectTrailingSlash }

/-- A router with the filter and one route, `POST /widgets`. -/
def postOnlyRouter : gin.Router :=
  { before := []
    Handlers := []
    getValue := gin.routeTable [((http.MethodPost, "/widgets"), [echoHandler])]
    noRoute := []
    RedirectTrailingSlash := true
    redirect := gin.redirectTrailingSlash }

/-- The middleware of a router that marks the requests arriving with method POST:
`if c.Request.Method == "POST" { c.Set("test_key", "test") }`. -/
def markPost : gin.HandlerFunc := fun c =>
  match c.Request with
  | none => c
  | some req => if req.Method = http.MethodPost then c.Set "test_key" "test" else c

/-- A router with `markPost` installed before the filter and one endpoint,
`DELETE /delete`, answered by the handler of `TestNew/MiddlewaresSideEffects`. -/
def markPostRouter : gin.Router :=
  { before := [markPost]
    Handlers := []
    getValue := gin.routeTable [((http.MethodDelete, "/delete"), [keyHandler])]
    noRoute := []
    RedirectTrailingSlash := true
    redirect := gin.redirectTrailingSlash }

/-- A POST request whose header map holds the override value "DELETE" under the key
`name` as it is written, `request.Header[name] = []string{"DELETE"}`, without
`Header.Set`. -/
def rawHeaderRequest (name : String) : http.Request :=
  { Method := "POST"
    URL := "/widgets"
    Header := some [(name, ["DELETE"])] }

/-- A request like `testRequest` whose override value is set under the header name
`name`: `request.Header.Set(name, override)`. -/
def testRequestNamed (name method endpoint override : String) : http.Request :=
  { Method := method
    URL := endpoint
    Header := some (http.Header.Set [] name override) }

/-- A POST request to another path, with another header before the override header
and a second value after the first one. -/
def otherRequest : http.Request :=
  { Method := "POST"
    URL := "/elsewhere"
    Header := some [("Accept", ["text/plain"]), ("X-Http-Method-Override", ["delete", "put"])] }

/-- A context for `otherRequest` in the middle of a chain, with a key attached and a
pending status. -/
def otherContext : gin.Context :=
  { Request := some otherRequest
    Writer := { status := 404, size := -1, sentStatus := none, sentBody := "" }
    index := 2
    Keys := [("user", "alice")] }

/-! ## A fragment of the Unicode case table -/

/-- Modelled from the spec: two entries of Go's table `unicode.CaseRanges`, which is
not among the repository's sources: `{0x0131, 0x0131, d{-232, 0, -232}}` (dotless
i, upper case `I`) and `{0x017F, 0x017F, d{-300, 0, -300}}` (long s, upper case
`S`).  All other runes are left as they are here; no statement made with this
fragment depends on them. -/
def caseRangesFragment (r : Char) : Char :=
  if r.toNat = 0x0131 then Char.ofNat (0x0131 - 232)
  else if r.toNat = 0x017F then Char.ofNat (0x017F - 300)
  else r

/-! ## The filter: its four outcomes -/

/-- The filter written as one case analysis: what `overrideMethod` returns on a
context whose request pointer is not nil. -/
theorem overrideMethod_some (caseRanges : Char → Char) (r : gin.Engine) (c : gin.Context)
    (req : http.Request) (hreq : c.Request = some req) :
    overrideMethod caseRanges r c =
      if req.Header = none then .ok (c, [])
      else if req.Method ≠ http.MethodPost then .ok (c, [])
      else if http.Header.Get req.Header XHTTPMethodOverrideHeader = "" then .ok (c, [])
      else if strings.ToUpper caseRanges (http.Header.Get req.Header XHTTPMethodOverrideHeader)
          = req.Method then .ok (c, [])
      else
        match switchMethod
            (strings.ToUpper caseRanges (http.Header.Get req.Header XHTTPMethodOverrideHeader)) with
        | none => .ok (c, [])
        | some m =>
          .ok (r.HandleContext ({ c with Request := some { req with Method := m } }).Abort,
            [Call.setMethod m, Call.Abort,
              Call.HandleContext ({ c with Request := some { req with Method := m } }).Abort]) := by
  unfold overrideMethod
  simp only [hreq, deref]
  cases hH : req.Header <;> simp [hH, bind, Except.bind, pure, Except.pure]

/-- On a nil request pointer the filter returns at its first guard. -/
theorem overrideMethod_none (caseRanges : Char → Char) (r : gin.Engine) (c : gin.Context)
    (hreq : c.Request = none) : overrideMethod caseRanges r c = .ok (c, []) := by
  unfold overrideMethod
  simp [hreq, pure, Except.pure]

/-- The empty string has no letters to map. -/
theorem ToUpper_empty (caseRanges : Char → Char) : strings.ToUpper caseRanges "" = "" := by
  rfl

/-- The switch assigns the very string it matched, one of the nine method constants. -/
theorem switchMethod_some (u m : String) (h : switchMethod u = some m) :
    m = u ∧ u ∈ [http.MethodGet, http.MethodPost, http.MethodPatch, http.MethodPut,
      http.MethodDelete, http.MethodHead, http.MethodOptions, http.MethodConnect,
      http.MethodTrace] := by
  unfold switchMethod at h
  split_ifs at h with h1 h2 h3 h4 h5 h6 h7 h8 h9 <;> simp_all

/-- The switch reaches `default` exactly on the strings outside the nine constants. -/
theorem switchMethod_none (u : String) :
    switchMethod u = none ↔
      u ∉ [http.MethodGet, http.MethodPost, http.MethodPatch, http.MethodPut,
        http.MethodDelete, http.MethodHead, http.MethodOptions, http.MethodConnect,
        http.MethodTrace] := by
  unfold switchMethod
  split_ifs with h1 h2 h3 h4 h5 h6 h7 h8 h9 <;> simp_all

/-- Each of the nine constants is matched by its own case. -/
theorem switchMethod_mem (u : String)
    (h : u ∈ [http.MethodGet, http.MethodPost, http.MethodPatch, http.MethodPut,
      http.MethodDelete, http.MethodHead, http.MethodOptions, http.MethodConnect,
      http.MethodTrace]) : switchMethod u = some u := by
  cases hs : switchMethod u with
  | none => exact absurd h ((switchMethod_none u).1 hs)
  | some m => rw [(switchMethod_some u m hs).1]

/-- The second guard: a request with a method other than "POST" is passed through. -/
theorem overrideMethod_of_not_post (caseRanges : Char → Char) (r : gin.Engine)
    (c : gin.Context) (req : http.Request)
    (hreq : c.Request = some req) (hmethod : req.Method ≠ "POST") :
    overrideMethod caseRanges r c = .ok (c, []) := by
  rw [overrideMethod_some caseRanges r c req hreq]
  simp [hmethod]

/-- The overriding path: on a POST request whose uppercased header value is one of
the eight verbs other than POST, the filter writes the verb, aborts and calls the
dispatcher. -/
theorem overrideMethod_of_override (caseRanges : Char → Char) (r : gin.Engine)
    (c : gin.Context) (req : http.Request) (V : String)
    (hreq : c.Request = some req)
    (hpost : req.Method = "POST")
    (hV : V ∈ ["GET", "PATCH", "PUT", "DELETE", "HEAD", "OPTIONS", "CONNECT", "TRACE"])
    (hup : strings.ToUpper caseRanges
      (http.Header.Get req.Header XHTTPMethodOverrideHeader) = V) :
    overrideMethod caseRanges r c =
      .ok (r.HandleContext
            { c with Request := some { req with Method := V }, index := gin.abortIndex },
          [Call.setMethod V, Call.Abort,
            Call.HandleContext
              { c with Request := some { req with Method := V }, index := gin.abortIndex }]) := by
  have hne : http.Header.Get req.Header XHTTPMethodOverrideHeader ≠ "" := by
    intro h0
    rw [h0, ToUpper_empty] at hup
    subst hup
    simp at hV
  have hH : req.Header ≠ none := by
    intro h0
    apply hne
    rw [h0]
    rfl
  have hsw : switchMethod V = some V := by
    apply switchMethod_mem
    simp only [List.mem_cons, List.mem_singleton, List.not_mem_nil, or_false] at hV ⊢
    tauto
  have hVp : V ≠ "POST" := by
    intro h0
    subst h0
    simp at hV
  rw [overrideMethod_some caseRanges r c req hreq]
  simp only [hH, hpost, hne, hup, hVp, hsw, if_false, ne_eq, not_true_eq_false]
  rfl

/-! ## Claims about the filter -/

/-- C1: on a POST request whose override header, uppercased, is one of GET, PATCH,
PUT, DELETE, HEAD, OPTIONS, CONNECT, TRACE, the filter built by `New` writes that
verb `V` to the request's method, aborts the chain and calls the dispatcher once,
with a context whose request has method `V`: what the dispatcher matches on and
what the handler it picks observes is `V`, not POST. -/
theorem C1_post_with_recognized_override (caseRanges : Char → Char) (r : gin.Engine)
    (c : gin.Context) (req : http.Request) (V : String)
    (hreq : c.Request = some req)
    (hpost : req.Method = "POST")
    (hV : V ∈ ["GET", "PATCH", "PUT", "DELETE", "HEAD", "OPTIONS", "CONNECT", "TRACE"])
    (hup : strings.ToUpper caseRanges
      (http.Header.Get req.Header XHTTPMethodOverrideHeader) = V) :
    New caseRanges r c =
      .ok (r.HandleContext
            { c with Request := some { req with Method := V }, index := gin.abortIndex },
          [Call.setMethod V, Call.Abort,
            Call.HandleContext
              { c with Request := some { req with Method := V }, index := gin.abortIndex }]) :=
  overrideMethod_of_override caseRanges r c req V hreq hpost hV hup

/-- C1 at the request `POST /test` with `X-HTTP-Method-Override: DeLeTe`. -/
theorem C1_post_with_recognized_override_witness :
    New id markingEngine (testContext (testRequest "POST" "/test" "DeLeTe")) =
      .ok (markingEngine.HandleContext
            { testContext (testRequest "POST" "/test" "DeLeTe") with
              Request := some { testRequest "POST" "/test" "DeLeTe" with Method := "DELETE" }
              index := gin.abortIndex },
          [Call.setMethod "DELETE", Call.Abort,
            Call.HandleContext
              { testContext (testRequest "POST" "/test" "DeLeTe") with
                Request := some { testRequest "POST" "/test" "DeLeTe" with Method := "DELETE" }
                index := gin.abortIndex }]) :=
  C1_post_with_recognized_override id markingEngine
    (testContext (testRequest "POST" "/test" "DeLeTe")) (testRequest "POST" "/test" "DeLeTe")
    "DELETE" rfl rfl (by decide) (by decide)

/-- C2: on a request whose method is not exactly "POST" the filter does nothing,
whatever the headers hold: the context is returned as it was, and neither `Abort`
nor the dispatcher is called. -/
theorem C2_not_post_is_noop (caseRanges : Char → Char) (r : gin.Engine)
    (c : gin.Context) (req : http.Request)
    (hreq : c.Request = some req) (hmethod : req.Method ≠ "POST") :
    overrideMethod caseRanges r c = .ok (c, []) :=
  overrideMethod_of_not_post caseRanges r c req hreq hmethod

/-- C2 at `PUT /widgets` with override DELETE, and at the method "post". -/
theorem C2_not_post_is_noop_witness :
    overrideMethod id markingEngine (testContext (testRequest "PUT" "/widgets" "DELETE")) =
        .ok (testContext (testRequest "PUT" "/widgets" "DELETE"), []) ∧
      overrideMethod id markingEngine (testContext (testRequest "post" "/widgets" "DELETE")) =
        .ok (testContext (testRequest "post" "/widgets" "DELETE"), []) :=
  ⟨C2_not_post_is_noop id markingEngine _ (testRequest "PUT" "/widgets" "DELETE") rfl
      (by decide),
    C2_not_post_is_noop id markingEngine _ (testRequest "post" "/widgets" "DELETE") rfl
      (by decide)⟩

/-- C3: on a POST request whose override header is absent, empty, or holds a string
whose uppercase form is none of the nine method constants, the filter does
nothing: the context is returned as it was, with method POST, and neither `Abort`
nor the dispatcher is called. -/
theorem C3_post_without_usable_override (caseRanges : Char → Char) (r : gin.Engine)
    (c : gin.Context) (req : http.Request)
    (hreq : c.Request = some req) (hpost : req.Method = "POST")
    (h : (∃ m, req.Header = some m ∧
            m.lookup (textproto.CanonicalMIMEHeaderKey XHTTPMethodOverrideHeader) = none) ∨
        http.Header.Get req.Header XHTTPMethodOverrideHeader = "" ∨
        strings.ToUpper caseRanges (http.Header.Get req.Header XHTTPMethodOverrideHeader) ∉
          ["GET", "POST", "PATCH", "PUT", "DELETE", "HEAD", "OPTIONS", "CONNECT", "TRACE"]) :
    overrideMethod caseRanges r c = .ok (c, []) ∧
      (c.Request.map fun q => q.Method) = some "POST" := by
  refine ⟨?_, by simp [hreq, hpost]⟩
  rw [overrideMethod_some caseRanges r c req hreq]
  rcases h with ⟨m, hm, hlook⟩ | h | h
  · have hget : http.Header.Get req.Header XHTTPMethodOverrideHeader = "" := by
      simp only [hm, http.Header.Get, hlook]
    simp [hget]
  · simp [h]
  · have hsw := (switchMethod_none _).2 h
    simp only [hsw]
    split_ifs <;> rfl

/-- C3 at `POST /widgets` with the override values "get " (trailing space), "FOO",
"123" and the empty string, and with no override header at all. -/
theorem C3_post_without_usable_override_witness :
    (overrideMethod id markingEngine (testContext (testRequest "POST" "/widgets" "get ")) =
        .ok (testContext (testRequest "POST" "/widgets" "get "), []) ∧
      ((testContext (testRequest "POST" "/widgets" "get ")).Request.map fun q => q.Method) =
        some "POST") ∧
    (overrideMethod id markingEngine (testContext (testRequest "POST" "/widgets" "FOO")) =
        .ok (testContext (testRequest "POST" "/widgets" "FOO"), []) ∧
      ((testContext (testRequest "POST" "/widgets" "FOO")).Request.map fun q => q.Method) =
        some "POST") ∧
    (overrideMethod id markingEngine (testContext (testRequest "POST" "/widgets" "123")) =
        .ok (testContext (testRequest "POST" "/widgets" "123"), []) ∧
      ((testContext (testRequest "POST" "/widgets" "123")).Request.map fun q => q.Method) =
        some "POST") ∧
    (overrideMethod id markingEngine (testContext (testRequest "POST" "/widgets" "")) =
        .ok (testContext (testRequest "POST" "/widgets" ""), []) ∧
      ((testContext (testRequest "POST" "/widgets" "")).Request.map fun q => q.Method) =
        some "POST") ∧
    (overrideMethod id markingEngine
        (testContext { Method := "POST", URL := "/widgets", Header := some [] }) =
        .ok (testContext { Method := "POST", URL := "/widgets", Header := some [] }, []) ∧
      ((testContext { Method := "POST", URL := "/widgets", Header := some [] }).Request.map
        fun q => q.Method) = some "POST") :=
  ⟨C3_post_without_usable_override id markingEngine _ (testRequest "POST" "/widgets" "get ")
      rfl rfl (Or.inr (Or.inr (by decide))),
    C3_post_without_usable_override id markingEngine _ (testRequest "POST" "/widgets" "FOO")
      rfl rfl (Or.inr (Or.inr (by decide))),
    C3_post_without_usable_override id markingEngine _ (testRequest "POST" "/widgets" "123")
      rfl rfl (Or.inr (Or.inr (by decide))),
    C3_post_without_usable_override id markingEngine _ (testRequest "POST" "/widgets" "")
      rfl rfl (Or.inr (Or.inl (by decide))),
    C3_post_without_usable_override id markingEngine _
      { Method := "POST", URL := "/widgets", Header := some [] }
      rfl rfl (Or.inl ⟨[], rfl, rfl⟩)⟩

/-- The number of a character made from a small number is that number. -/
theorem toNat_ofNat_small (n : Nat) (h : n < 0xd800) : (Char.ofNat n).toNat = n := by
  have hv : n.isValidChar := Or.inl h
  simp only [Char.ofNat, hv, Char.ofNatAux, Char.toNat, dite_true]
  show (BitVec.ofNatLt n _).toNat = n
  simp

/-- A character whose lower-case form is the lower-case letter `b` is `b` or the
upper-case letter of `b`. -/
theorem eq_or_eq_upper_of_toLower (a b : Char) (h : a.toLower = b) : a = b ∨ a = Char.ofNat (b.toNat - 32) := by
  unfold Char.toLower at h
  simp only at h
  split_ifs at h with hr
  · right
    have h1 : (Char.ofNat (a.toNat + 32)).toNat = b.toNat := by rw [h]
    rw [toNat_ofNat_small _ (by omega)] at h1
    rw [← h1, Nat.add_sub_cancel, Char.ofNat_toNat]
  · exact Or.inl h

/-- A header value that reads "post" once its letters are lowered is uppercased to
"POST" by `strings.ToUpper`, whatever the Unicode table. -/
theorem ToUpper_of_post_variant (caseRanges : Char → Char) (v : String)
    (hv : v.data.map Char.toLower = "post".data) : strings.ToUpper caseRanges v = "POST" := by
  obtain ⟨l⟩ := v
  have hl : "post".data = ['p', 'o', 's', 't'] := rfl
  rw [hl] at hv
  simp only at hv
  rcases l with _ | ⟨a, _ | ⟨b, _ | ⟨c, _ | ⟨d, _ | ⟨e, l⟩⟩⟩⟩⟩ <;>
    simp only [List.map_cons, List.map_nil, List.cons.injEq, and_true, and_false,
      reduceCtorEq] at hv
  obtain ⟨ha, hb, hc, hd⟩ := hv
  rcases eq_or_eq_upper_of_toLower a 'p' ha with rfl | rfl <;>
  rcases eq_or_eq_upper_of_toLower b 'o' hb with rfl | rfl <;>
  rcases eq_or_eq_upper_of_toLower c 's' hc with rfl | rfl <;>
  rcases eq_or_eq_upper_of_toLower d 't' hd with rfl | rfl <;>
  rfl

/-- C4: on a POST request whose override header reads "POST" in any letter case (its
letters lowered give "post"), the filter does nothing: no `Abort`, no call of the
dispatcher, and the context is returned as it was, with method POST. -/
theorem C4_post_override_post (caseRanges : Char → Char) (r : gin.Engine)
    (c : gin.Context) (req : http.Request)
    (hreq : c.Request = some req) (hpost : req.Method = "POST")
    (hv : (http.Header.Get req.Header XHTTPMethodOverrideHeader).data.map Char.toLower =
      "post".data) :
    overrideMethod caseRanges r c = .ok (c, []) ∧
      (c.Request.map fun q => q.Method) = some "POST" := by
  refine ⟨?_, by simp [hreq, hpost]⟩
  rw [overrideMethod_some caseRanges r c req hreq]
  have hup := ToUpper_of_post_variant caseRanges _ hv
  simp only [hup, hpost]
  split_ifs <;> rfl

/-- C4 at `POST /post` with the override values "POST", "post" and "Post". -/
theorem C4_post_override_post_witness :
    (overrideMethod id markingEngine (testContext (testRequest "POST" "/post" "POST")) =
        .ok (testContext (testRequest "POST" "/post" "POST"), []) ∧
      ((testContext (testRequest "POST" "/post" "POST")).Request.map fun q => q.Method) =
        some "POST") ∧
    (overrideMethod id markingEngine (testContext (testRequest "POST" "/post" "post")) =
        .ok (testContext (testRequest "POST" "/post" "post"), []) ∧
      ((testContext (testRequest "POST" "/post" "post")).Request.map fun q => q.Method) =
        some "POST") ∧
    (overrideMethod id markingEngine (testContext (testRequest "POST" "/post" "Post")) =
        .ok (testContext (testRequest "POST" "/post" "Post"), []) ∧
      ((testContext (testRequest "POST" "/post" "Post")).Request.map fun q => q.Method) =
        some "POST") :=
  ⟨C4_post_override_post id markingEngine _ (testRequest "POST" "/post" "POST") rfl rfl
      (by decide),
    C4_post_override_post id markingEngine _ (testRequest "POST" "/post" "post") rfl rfl
      (by decide),
    C4_post_override_post id markingEngine _ (testRequest "POST" "/post" "Post") rfl rfl
      (by decide)⟩

/-- What the filter returns is one of two things: the context untouched with no
call made, or the dispatcher's result on the context with a new method and the
abort mark, with the three calls in program order. -/
theorem overrideMethod_outcomes (caseRanges : Char → Char) (r : gin.Engine)
    (c : gin.Context) :
    overrideMethod caseRanges r c = .ok (c, []) ∨
      ∃ req V, c.Request = some req ∧ req.Method = "POST" ∧ V ≠ "POST" ∧
        V ∈ ["GET", "PATCH", "PUT", "DELETE", "HEAD", "OPTIONS", "CONNECT", "TRACE"] ∧
        strings.ToUpper caseRanges
          (http.Header.Get req.Header XHTTPMethodOverrideHeader) = V ∧
        overrideMethod caseRanges r c =
          .ok (r.HandleContext
                { c with Request := some { req with Method := V }, index := gin.abortIndex },
              [Call.setMethod V, Call.Abort,
                Call.HandleContext
                  { c with Request := some { req with Method := V },
                           index := gin.abortIndex }]) := by
  cases hreq : c.Request with
  | none => exact Or.inl (overrideMethod_none caseRanges r c hreq)
  | some req =>
    rw [overrideMethod_some caseRanges r c req hreq]
    by_cases hH : req.Header = none
    · simp [hH]
    by_cases hm : req.Method = "POST"
    swap
    · simp [hm]
    by_cases he : http.Header.Get req.Header XHTTPMethodOverrideHeader = ""
    · simp [he]
    by_cases hu : strings.ToUpper caseRanges
        (http.Header.Get req.Header XHTTPMethodOverrideHeader) = req.Method
    · simp [hu]
    cases hsw : switchMethod (strings.ToUpper caseRanges
        (http.Header.Get req.Header XHTTPMethodOverrideHeader)) with
    | none => simp [hsw]
    | some V =>
      right
      obtain ⟨hV, hmem⟩ := switchMethod_some _ _ hsw
      have hVp : V ≠ "POST" := by
        rw [hV, ← hm]
        exact hu
      refine ⟨req, V, rfl, hm, hVp, ?_, hV.symm, ?_⟩
      · rw [← hV] at hmem
        simp only [List.mem_cons, List.mem_singleton, List.not_mem_nil, or_false] at hmem ⊢
        tauto
      · simp only [hH, hm, he, hsw, if_false, ne_eq, not_true_eq_false]
        rw [hm] at hu
        simp only [hu, if_false]
        rfl

/-- C5: the filter aborts the chain and calls the dispatcher exactly when it changed
the request's method.  Either it made no call at all and returns the context as it
was, or it wrote a method different from the one the request had, called `Abort`
once and then `HandleContext` once, and returns what the dispatcher returned.  In
both cases at most one call of the dispatcher is made. -/
theorem C5_redispatch_iff_method_changed (caseRanges : Char → Char) (r : gin.Engine)
    (c : gin.Context) :
    (overrideMethod caseRanges r c = .ok (c, []) ∨
      ∃ req V c2, c.Request = some req ∧ V ≠ req.Method ∧
        c2 = { c with Request := some { req with Method := V }, index := gin.abortIndex } ∧
        overrideMethod caseRanges r c =
          .ok (r.HandleContext c2, [Call.setMethod V, Call.Abort, Call.HandleContext c2])) ∧
    ∃ c1 calls, overrideMethod caseRanges r c = .ok (c1, calls) ∧
      (calls.filter fun k => match k with
        | Call.HandleContext _ => true
        | _ => false).length ≤ 1 ∧
      (Call.Abort ∈ calls ↔ ∃ V, Call.setMethod V ∈ calls ∧
        some V ≠ c.Request.map fun q => q.Method) ∧
      ((∃ c2, Call.HandleContext c2 ∈ calls) ↔ ∃ V, Call.setMethod V ∈ calls ∧
        some V ≠ c.Request.map fun q => q.Method) := by
  rcases overrideMethod_outcomes caseRanges r c with h | ⟨req, V, hreq, hm, hVp, _, _, h⟩
  · exact ⟨Or.inl h, c, [], h, by simp, by simp, by simp⟩
  · refine ⟨Or.inr ⟨req, V, _, hreq, by rw [hm]; exact hVp, rfl, h⟩, _, _, h, by simp, ?_, ?_⟩
    · simp only [List.mem_cons, List.mem_singleton, true_or, or_true, true_iff,
        List.not_mem_nil, or_false, reduceCtorEq, false_or, Call.setMethod.injEq]
      exact ⟨V, rfl, by simp [hreq, hm, hVp]⟩
    · simp only [List.mem_cons, List.mem_singleton, true_or, or_true, true_iff,
        List.not_mem_nil, or_false, reduceCtorEq, false_or, Call.setMethod.injEq,
        Call.HandleContext.injEq]
      exact ⟨fun _ => ⟨V, rfl, by simp [hreq, hm, hVp]⟩, fun _ => ⟨_, rfl⟩⟩

/-- C7: the filter never panics.  It returns normally on every context, and on a nil
request pointer or a nil header map it returns the context as it was, with no
call made. -/
theorem C7_never_fails (caseRanges : Char → Char) (r : gin.Engine) :
    (∀ c : gin.Context, ∃ res, overrideMethod caseRanges r c = .ok res) ∧
    (∀ (w : gin.responseWriter) (i : Int) (k : List (String × String)),
      overrideMethod caseRanges r { Request := none, Writer := w, index := i, Keys := k } =
        .ok ({ Request := none, Writer := w, index := i, Keys := k }, [])) ∧
    (∀ (m u : String) (w : gin.responseWriter) (i : Int) (k : List (String × String)),
      overrideMethod caseRanges r
          { Request := some { Method := m, URL := u, Header := none },
            Writer := w, index := i, Keys := k } =
        .ok ({ Request := some { Method := m, URL := u, Header := none },
               Writer := w, index := i, Keys := k }, [])) := by
  refine ⟨?_, ?_, ?_⟩
  · intro c
    rcases overrideMethod_outcomes caseRanges r c with h | ⟨_, _, _, _, _, _, _, h⟩
    · exact ⟨_, h⟩
    · exact ⟨_, h⟩
  · intro w i k
    exact overrideMethod_none caseRanges r _ rfl
  · intro m u w i k
    rw [overrideMethod_some caseRanges r _ _ rfl]
    simp

/-- C8: the filter writes nothing of the request but its method.  Every context it
hands to the dispatcher carries the header map and the URL the request came with,
so the override header still reads as before, and carries the keys and the writer
of the incoming context; when the dispatcher is not called the context is returned
as it was.  With a dispatcher that itself leaves header map and URL alone, both
are the same after the filter has run as before. -/
theorem C8_only_the_method_is_written (caseRanges : Char → Char) (r : gin.Engine)
    (c : gin.Context) :
    ∃ c1 calls, overrideMethod caseRanges r c = .ok (c1, calls) ∧
      (∀ c2, Call.HandleContext c2 ∈ calls →
        (c2.Request.map fun q => (q.Header, q.URL)) =
          (c.Request.map fun q => (q.Header, q.URL)) ∧
        (c2.Request.map fun q => http.Header.Get q.Header XHTTPMethodOverrideHeader) =
          (c.Request.map fun q => http.Header.Get q.Header XHTTPMethodOverrideHeader) ∧
        c2.Keys = c.Keys ∧ c2.Writer = c.Writer ∧ c1 = r.HandleContext c2) ∧
      ((∀ c2, Call.HandleContext c2 ∉ calls) → c1 = c) ∧
      ((∀ x, ((r.HandleContext x).Request.map fun q => (q.Header, q.URL)) =
          (x.Request.map fun q => (q.Header, q.URL))) →
        (c1.Request.map fun q => (q.Header, q.URL)) =
          (c.Request.map fun q => (q.Header, q.URL))) := by
  rcases overrideMethod_outcomes caseRanges r c with h | ⟨req, V, hreq, _, _, _, _, h⟩
  · exact ⟨c, [], h, by simp, by simp, by simp⟩
  · refine ⟨_, _, h, ?_, ?_, ?_⟩
    · intro c2 hc2
      simp only [List.mem_cons, List.mem_singleton, reduceCtorEq, false_or,
        Call.HandleContext.injEq, List.not_mem_nil, or_false] at hc2
      subst hc2
      simp [hreq]
    · intro hno
      exact absurd (List.mem_cons_of_mem _ (List.mem_cons_of_mem _ (List.mem_singleton_self _)))
        (hno _)
    · intro hr
      rw [hr]
      simp [hreq]

/-- C9: the dispatcher is called at most once per request.  When the filter has
overridden the method, the request it hands to the dispatcher has a method other
than "POST", so the filter run again on any context that carries this request
(as in the nested dispatch) returns it as it was and makes no call; and with a
dispatcher that leaves the request alone, the filter applied to its own result
changes nothing: twice is the same as once. -/
theorem C9_second_pass_is_noop (caseRanges : Char → Char) (r : gin.Engine)
    (c : gin.Context) :
    ∃ c1 calls, overrideMethod caseRanges r c = .ok (c1, calls) ∧
      (∀ c2, Call.HandleContext c2 ∈ calls →
        (∃ req2, c2.Request = some req2 ∧ req2.Method ≠ "POST") ∧
        ∀ (r2 : gin.Engine) (x : gin.Context), x.Request = c2.Request →
          overrideMethod caseRanges r2 x = .ok (x, [])) ∧
      ((∀ x, (r.HandleContext x).Request = x.Request) →
        overrideMethod caseRanges r c1 = .ok (c1, [])) := by
  rcases overrideMethod_outcomes caseRanges r c with h | ⟨req, V, hreq, _, hVp, _, _, h⟩
  · exact ⟨c, [], h, by simp, fun _ => h⟩
  · refine ⟨_, _, h, ?_, ?_⟩
    · intro c2 hc2
      simp only [List.mem_cons, List.mem_singleton, reduceCtorEq, false_or,
        Call.HandleContext.injEq, List.not_mem_nil, or_false] at hc2
      subst hc2
      refine ⟨⟨_, rfl, hVp⟩, ?_⟩
      intro r2 x hx
      exact overrideMethod_of_not_post caseRanges r2 x _ hx hVp
    · intro hr
      exact overrideMethod_of_not_post caseRanges r _ _ (hr _) hVp

/-! ## The filter inside the dispatcher -/

/-- A chain does not run on an aborted context. -/
theorem Next_of_aborted (hs : List gin.HandlerFunc) (c : gin.Context)
    (h : c.IsAborted = true) : gin.Context.Next hs c = c := by
  cases hs with
  | nil => rfl
  | cons g gs => simp [gin.Context.Next, h]

/-- Running two chains one after the other is running their concatenation. -/
theorem Next_append (hs gs : List gin.HandlerFunc) (c : gin.Context) :
    gin.Context.Next (hs ++ gs) c = gin.Context.Next gs (gin.Context.Next hs c) := by
  induction hs generalizing c with
  | nil => rfl
  | cons g rest ih =>
    by_cases ha : c.IsAborted = true
    · simp [gin.Context.Next, ha, Next_of_aborted]
    · simp [gin.Context.Next, ha, ih]

/-- A first handler that leaves the context as it is can be dropped from the chain. -/
theorem Next_cons_of_noop (g : gin.HandlerFunc) (hs : List gin.HandlerFunc)
    (c : gin.Context) (h : g c = c) :
    gin.Context.Next (g :: hs) c = gin.Context.Next hs c := by
  by_cases ha : c.IsAborted = true
  · simp [gin.Context.Next, ha, Next_of_aborted]
  · simp [gin.Context.Next, ha, h]

/-- The filter as a handler passes a request with a method other than "POST" through. -/
theorem filterHandler_of_not_post (caseRanges : Char → Char) (r : gin.Engine)
    (c : gin.Context) (req : http.Request)
    (hreq : c.Request = some req) (hmethod : req.Method ≠ "POST") :
    filterHandler caseRanges r c = c := by
  simp [filterHandler, New, overrideMethod_of_not_post caseRanges r c req hreq hmethod]

/-- After `WriteHeaderNow` the writer counts as written. -/
theorem Written_WriteHeaderNow (w : gin.responseWriter) : w.WriteHeaderNow.Written = true := by
  unfold gin.responseWriter.WriteHeaderNow
  by_cases h : w.Written = true
  · simp [h]
  · simp only [h, Bool.not_eq_true, Bool.not_false, if_true]
    rfl

/-- A write on a writer with nothing written leaves it written. -/
theorem Written_Write (w : gin.responseWriter) (data : String) (h : w.Written = false) :
    (w.Write data).Written = true := by
  have h0 : w.WriteHeaderNow.size = 0 := by
    simp [gin.responseWriter.WriteHeaderNow, h]
  simp only [gin.responseWriter.Write, gin.responseWriter.Written, h0, bne_iff_ne, ne_eq]
  omega

/-- `WriteHeaderNow` does nothing to a written writer. -/
theorem WriteHeaderNow_of_Written (w : gin.responseWriter) (h : w.Written = true) :
    w.WriteHeaderNow = w := by
  simp [gin.responseWriter.WriteHeaderNow, h]

/-- The not-found path ends with a written response. -/
theorem Written_serveError (hs : List gin.HandlerFunc) (code : Nat) (msg : String)
    (c : gin.Context) : (gin.serveError hs code msg c).Writer.Written = true := by
  unfold gin.serveError
  simp only
  split_ifs with h1 h2
  · exact h1
  · exact Written_Write _ _ (by simpa using h1)
  · exact Written_WriteHeaderNow _

/-- The not-found path overwrites the pending status before anything runs. -/
theorem serveError_status (hs : List gin.HandlerFunc) (code status : Nat) (msg : String)
    (c : gin.Context) :
    gin.serveError hs code msg { c with Writer := { c.Writer with status := status } } =
      gin.serveError hs code msg c := by
  rfl

/-- The dispatcher, with the filter installed first, on a context the filter passes
through: the result is that of the dispatch without the filter, at every depth. -/
theorem handleHTTPRequest_of_pass (caseRanges : Char → Char) (e : gin.Router) (n : Nat)
    (r : gin.Engine) (c : gin.Context) (req : http.Request)
    (hfirst : e.before = [])
    (hreq : c.Request = some req) (hpass : overrideMethod caseRanges r c = .ok (c, [])) :
    e.handleHTTPRequest caseRanges (n + 1) c =
      match e.route req.Method (http.urlPath req.URL) with
      | .found handlers =>
        { gin.Context.Next (e.Handlers ++ handlers) c with
          Writer := (gin.Context.Next (e.Handlers ++ handlers) c).Writer.WriteHeaderNow }
      | .redirect => { e.redirect c with Writer := (e.redirect c).Writer.WriteHeaderNow }
      | .notFound => gin.serveError (e.Handlers ++ e.noRoute) 404 gin.default404Body c := by
  have hf : ∀ (r2 : gin.Engine) (c2 : gin.Context), c2.Request = c.Request →
      filterHandler caseRanges r2 c2 = c2 := by
    intro r2 c2 h2
    rcases overrideMethod_outcomes caseRanges r2 c2 with
      h3 | ⟨q, V, hq, hpost, _, hV, hup, _⟩
    · simp [filterHandler, New, h3]
    · have h4 := overrideMethod_of_override caseRanges r c q V (h2 ▸ hq) hpost hV hup
      rw [hpass] at h4
      simp at h4
  simp only [gin.Router.handleHTTPRequest, hreq, hfirst, List.nil_append]
  cases e.route req.Method (http.urlPath req.URL) with
  | found handlers =>
    simp only
    rw [Next_cons_of_noop _ _ _ (hf _ c rfl)]
  | redirect => rfl
  | notFound =>
    simp only [gin.serveError]
    rw [Next_cons_of_noop _ _ _
      (hf _ ({ c with Writer := { c.Writer with status := 404 } } : gin.Context) rfl)]

/-- The dispatcher, with the filter installed first, on a request with a method other
than "POST". -/
theorem handleHTTPRequest_of_not_post (caseRanges : Char → Char) (e : gin.Router) (n : Nat)
    (c : gin.Context) (req : http.Request)
    (hfirst : e.before = [])
    (hreq : c.Request = some req) (hmethod : req.Method ≠ "POST") :
    e.handleHTTPRequest caseRanges (n + 1) c =
      match e.route req.Method (http.urlPath req.URL) with
      | .found handlers =>
        { gin.Context.Next (e.Handlers ++ handlers) c with
          Writer := (gin.Context.Next (e.Handlers ++ handlers) c).Writer.WriteHeaderNow }
      | .redirect => { e.redirect c with Writer := (e.redirect c).Writer.WriteHeaderNow }
      | .notFound => gin.serveError (e.Handlers ++ e.noRoute) 404 gin.default404Body c :=
  handleHTTPRequest_of_pass caseRanges e n ⟨id⟩ c req hfirst hreq
    (overrideMethod_of_not_post caseRanges ⟨id⟩ c req hreq hmethod)

/-- A dispatch of a context that has a request ends with a written response. -/
theorem Written_handleHTTPRequest (caseRanges : Char → Char) (e : gin.Router) (n : Nat)
    (c : gin.Context) (req : http.Request) (hreq : c.Request = some req) :
    (e.handleHTTPRequest caseRanges (n + 1) c).Writer.Written = true := by
  simp only [gin.Router.handleHTTPRequest, hreq]
  cases e.route req.Method (http.urlPath req.URL) with
  | found handlers => exact Written_WriteHeaderNow _
  | redirect => exact Written_WriteHeaderNow _
  | notFound => exact Written_serveError _ _ _ _

/-- The filter as a handler on the overriding path, with gin's `HandleContext`: the
nested dispatch starts on the context with the new method, the index of a fresh
chain and no keys, whatever keys the context carried; the abort mark comes back. -/
theorem filterHandler_of_override (caseRanges : Char → Char)
    (dispatch : gin.Context → gin.Context) (c : gin.Context) (req : http.Request)
    (V : String)
    (hreq : c.Request = some req)
    (hpost : req.Method = "POST")
    (hV : V ∈ ["GET", "PATCH", "PUT", "DELETE", "HEAD", "OPTIONS", "CONNECT", "TRACE"])
    (hup : strings.ToUpper caseRanges
      (http.Header.Get req.Header XHTTPMethodOverrideHeader) = V) :
    filterHandler caseRanges ⟨gin.HandleContext dispatch⟩ c =
      { dispatch { Request := some { req with Method := V }, Writer := c.Writer, index := -1,
                   Keys := [] } with index := gin.abortIndex } := by
  simp [filterHandler, New,
    overrideMethod_of_override caseRanges ⟨gin.HandleContext dispatch⟩ c req V hreq hpost hV hup,
    gin.HandleContext, gin.Context.reset]

/-- A chain headed by the filter, started on a fresh context with an overriding
request: the filter runs the nested dispatch, and no later handler of the chain
runs. -/
theorem Next_filter_of_override (caseRanges : Char → Char)
    (dispatch : gin.Context → gin.Context) (hs : List gin.HandlerFunc)
    (w : gin.responseWriter) (req : http.Request) (V : String)
    (hpost : req.Method = "POST")
    (hV : V ∈ ["GET", "PATCH", "PUT", "DELETE", "HEAD", "OPTIONS", "CONNECT", "TRACE"])
    (hup : strings.ToUpper caseRanges
      (http.Header.Get req.Header XHTTPMethodOverrideHeader) = V) :
    gin.Context.Next (filterHandler caseRanges ⟨gin.HandleContext dispatch⟩ :: hs)
        { Request := some req, Writer := w, index := -1, Keys := [] } =
      { dispatch { Request := some { req with Method := V }, Writer := w, index := -1,
                   Keys := [] } with index := gin.abortIndex } := by
  have hf := filterHandler_of_override caseRanges dispatch
    { Request := some req, Writer := w, index := -1, Keys := [] } req V rfl hpost hV hup
  have h0 : gin.Context.IsAborted
      { Request := some req, Writer := w, index := -1, Keys := [] } = false := by
    simp only [gin.Context.IsAborted, decide_eq_false_iff_not]
    decide
  rw [gin.Context.Next]
  simp only [h0, Bool.false_eq_true, if_false]
  rw [hf]
  apply Next_of_aborted
  simp [gin.Context.IsAborted]

/-- The verbs the filter overrides to are not "POST". -/
theorem ne_post_of_mem (V : String)
    (hV : V ∈ ["GET", "PATCH", "PUT", "DELETE", "HEAD", "OPTIONS", "CONNECT", "TRACE"]) :
    V ≠ "POST" := by
  intro h0
  subst h0
  simp at hV

/-- The dispatcher, with the filter installed first, on an overriding POST request
that is not redirected, at depth two or more: the result is that of the nested
dispatch of the request with method `V`, started on a reset context whose writer
carries the pending status of the outer dispatch: 200 when a POST route matched
the path, 404 when the not-found path was taken. -/
theorem ServeHTTP_of_override (caseRanges : Char → Char) (e : gin.Router) (n : Nat)
    (req : http.Request) (V : String)
    (hfirst : e.before = [])
    (hpost : req.Method = "POST")
    (hV : V ∈ ["GET", "PATCH", "PUT", "DELETE", "HEAD", "OPTIONS", "CONNECT", "TRACE"])
    (hup : strings.ToUpper caseRanges
      (http.Header.Get req.Header XHTTPMethodOverrideHeader) = V)
    (hreach : e.route "POST" (http.urlPath req.URL) = .notFound ∨
      ∃ handlers, e.route "POST" (http.urlPath req.URL) = .found handlers) :
    e.ServeHTTP caseRanges (n + 2) req =
      { e.handleHTTPRequest caseRanges (n + 1)
          { Request := some { req with Method := V }
            Writer := { gin.responseWriter.reset with
              status :=
                match e.route "POST" (http.urlPath req.URL) with
                | .found _ => 200
                | _ => 404 }
            index := -1
            Keys := [] } with index := gin.abortIndex } := by
  unfold gin.Router.ServeHTTP
  rw [show n + 2 = (n + 1) + 1 from rfl, gin.Router.handleHTTPRequest]
  simp only [hpost, hfirst, List.nil_append]
  rcases hreach with hl | ⟨handlers, hl⟩
  · simp only [hl, gin.serveError]
    rw [Next_filter_of_override caseRanges _ _ _ req V hpost hV hup]
    have hw := Written_handleHTTPRequest caseRanges e n
      { Request := some { req with Method := V }
        Writer := { gin.responseWriter.reset with status := 404 }
        index := -1, Keys := [] } _ rfl
    simp only [hw, if_true]
  · simp only [hl]
    rw [Next_filter_of_override caseRanges _ _ _ req V hpost hV hup]
    have hw := Written_handleHTTPRequest caseRanges e n
      { Request := some { req with Method := V }, Writer := gin.responseWriter.reset,
        index := -1, Keys := [] } _ rfl
    simp only [WriteHeaderNow_of_Written _ hw]
    rfl

/-- The dispatcher, with the filter installed first, on a fresh context with a
request whose method is not "POST": the dispatch without the filter, at every
depth. -/
theorem ServeHTTP_of_not_post (caseRanges : Char → Char) (e : gin.Router) (n : Nat)
    (req : http.Request) (hfirst : e.before = []) (hmethod : req.Method ≠ "POST") :
    e.ServeHTTP caseRanges (n + 1) req =
      match e.route req.Method (http.urlPath req.URL) with
      | .found handlers =>
        { gin.Context.Next (e.Handlers ++ handlers) (testContext req) with
          Writer :=
            (gin.Context.Next (e.Handlers ++ handlers) (testContext req)).Writer.WriteHeaderNow }
      | .redirect =>
        { e.redirect (testContext req) with
          Writer := (e.redirect (testContext req)).Writer.WriteHeaderNow }
      | .notFound =>
        gin.serveError (e.Handlers ++ e.noRoute) 404 gin.default404Body (testContext req) :=
  handleHTTPRequest_of_not_post caseRanges e n (testContext req) req hfirst rfl hmethod

/-- Depth two is enough: with the filter installed first, the dispatcher's answer to
a request from the network is the same at every depth from two on, since the
nested dispatch the filter starts never starts another one. -/
theorem ServeHTTP_depth (caseRanges : Char → Char) (e : gin.Router) (n : Nat)
    (req : http.Request) (hfirst : e.before = []) :
    e.ServeHTTP caseRanges (n + 2) req = e.ServeHTTP caseRanges 2 req := by
  rcases overrideMethod_outcomes caseRanges ⟨id⟩ (testContext req) with
    h | ⟨req2, V, hreq2, hpost, hVp, hV, hup, _⟩
  · have h1 := handleHTTPRequest_of_pass caseRanges e (n + 1) ⟨id⟩ (testContext req) req
      hfirst rfl h
    have h2 := handleHTTPRequest_of_pass caseRanges e 1 ⟨id⟩ (testContext req) req hfirst rfl h
    exact h1.trans h2.symm
  · have hr : req2 = req := by
      simpa [testContext] using hreq2.symm
    subst hr
    cases hroute : e.route "POST" (http.urlPath req2.URL) with
    | redirect =>
      unfold gin.Router.ServeHTTP
      rw [show n + 2 = (n + 1) + 1 from rfl, gin.Router.handleHTTPRequest,
        gin.Router.handleHTTPRequest]
      simp only [hpost, hroute]
    | notFound =>
      rw [ServeHTTP_of_override caseRanges e n req2 V hfirst hpost hV hup (Or.inl hroute),
        ServeHTTP_of_override caseRanges e 0 req2 V hfirst hpost hV hup (Or.inl hroute),
        handleHTTPRequest_of_not_post caseRanges e n _ { req2 with Method := V } hfirst rfl hVp,
        handleHTTPRequest_of_not_post caseRanges e 0 _ { req2 with Method := V } hfirst rfl hVp]
    | found handlers =>
      rw [ServeHTTP_of_override caseRanges e n req2 V hfirst hpost hV hup (Or.inr ⟨_, hroute⟩),
        ServeHTTP_of_override caseRanges e 0 req2 V hfirst hpost hV hup (Or.inr ⟨_, hroute⟩),
        handleHTTPRequest_of_not_post caseRanges e n _ { req2 with Method := V } hfirst rfl hVp,
        handleHTTPRequest_of_not_post caseRanges e 0 _ { req2 with Method := V } hfirst rfl hVp]

/-- C6, as amended: on a dispatcher with the filter installed first, take a POST
request that carries the override verb `V` and is not answered by a trailing-slash
redirect (which gin issues before any handler runs).  Its outcome is that of the
dispatch of the same request with method `V` on a writer whose pending status is
200 when a POST route matched the path and 404 when none did.  It is the outcome
of the request arriving with method `V` directly (writer, request and keys
agree) whenever a POST route is registered for the path or nothing is found for
`V` and the path.  In particular, when nothing is found for `V` and the path,
the answer is that of the dispatcher's not-found path, which without not-found
handlers is status 404 with the default body, also when a POST route for the
path exists.  The statement holds at every depth of at least two. -/
theorem C6_override_answers_as_direct (caseRanges : Char → Char) (e : gin.Router) (n : Nat)
    (req : http.Request) (V : String)
    (hfirst : e.before = [])
    (hpost : req.Method = "POST")
    (hV : V ∈ ["GET", "PATCH", "PUT", "DELETE", "HEAD", "OPTIONS", "CONNECT", "TRACE"])
    (hup : strings.ToUpper caseRanges
      (http.Header.Get req.Header XHTTPMethodOverrideHeader) = V)
    (hreach : e.route "POST" (http.urlPath req.URL) = .notFound ∨
      ∃ handlers, e.route "POST" (http.urlPath req.URL) = .found handlers) :
    outcome (e.ServeHTTP caseRanges (n + 2) req) =
        outcome (e.handleHTTPRequest caseRanges (n + 1)
          { Request := some { req with Method := V }
            Writer := { gin.responseWriter.reset with
              status :=
                match e.route "POST" (http.urlPath req.URL) with
                | .found _ => 200
                | _ => 404 }
            index := -1
            Keys := [] }) ∧
      (((∃ handlers, e.route "POST" (http.urlPath req.URL) = .found handlers) ∨
          e.route V (http.urlPath req.URL) = .notFound) →
        outcome (e.ServeHTTP caseRanges (n + 2) req) =
          outcome (e.ServeHTTP caseRanges (n + 2) { req with Method := V })) ∧
      (e.route V (http.urlPath req.URL) = .notFound →
        outcome (e.ServeHTTP caseRanges (n + 2) req) =
          outcome (gin.serveError (e.Handlers ++ e.noRoute) 404 gin.default404Body
            (testContext { req with Method := V })) ∧
        (e.Handlers = [] → e.noRoute = [] →
          (e.ServeHTTP caseRanges (n + 2) req).Writer.sentStatus = some 404 ∧
          (e.ServeHTTP caseRanges (n + 2) req).Writer.sentBody = gin.default404Body)) := by
  have hVp := ne_post_of_mem V hV
  have hdirect := ServeHTTP_of_not_post caseRanges e (n + 1) { req with Method := V } hfirst hVp
  have hover := ServeHTTP_of_override caseRanges e n req V hfirst hpost hV hup hreach
  have hnested := fun c => handleHTTPRequest_of_not_post caseRanges e n c
    { req with Method := V } hfirst
  have hnone : e.route V (http.urlPath req.URL) = .notFound →
      e.ServeHTTP caseRanges (n + 2) req =
        { gin.serveError (e.Handlers ++ e.noRoute) 404 gin.default404Body
            (testContext { req with Method := V }) with index := gin.abortIndex } := by
    intro hl
    rw [hover, hnested _ rfl hVp]
    simp only [hl]
    rw [serveError_status]
    rfl
  refine ⟨by rw [hover]; rfl, ?_, fun hl => ⟨by rw [hnone hl]; rfl, ?_⟩⟩
  · rintro (⟨handlers, hp⟩ | hl)
    · rw [hover, hdirect, hnested _ rfl hVp]
      simp only [hp]
      rfl
    · rw [hnone hl, hdirect]
      simp only [hl]
      rfl
  · intro h1 h2
    rw [hnone hl, h1, h2]
    exact ⟨rfl, rfl⟩

/-- C6 as amended, at `POST /test` with override DELETE on the router of
`TestNew/SameEndpointWithDifferentMethod` (a POST route exists): the outcome is
that of `DELETE /test`, status 200 from the handler; and at `POST /widgets` with
override DELETE on a router that has a POST route only: status 404 with the
default body. -/
theorem C6_override_answers_as_direct_witness :
    outcome (sameEndpointRouter.ServeHTTP id 2 (testRequest "POST" "/test" "DELETE")) =
        outcome (sameEndpointRouter.ServeHTTP id 2
          { testRequest "POST" "/test" "DELETE" with Method := "DELETE" }) ∧
    (sameEndpointRouter.ServeHTTP id 2 (testRequest "POST" "/test" "DELETE")).Writer.sentStatus =
      some 200 ∧
    (sameEndpointRouter.ServeHTTP id 2 (testRequest "POST" "/test" "DELETE")).Writer.sentBody =
      jsonObject [("endpoint", "/test"), ("method", "DELETE"), ("override", "DELETE")] ∧
    (postOnlyRouter.ServeHTTP id 2 (testRequest "POST" "/widgets" "DELETE")).Writer.sentStatus =
      some 404 ∧
    (postOnlyRouter.ServeHTTP id 2 (testRequest "POST" "/widgets" "DELETE")).Writer.sentBody =
      gin.default404Body :=
  ⟨(C6_override_answers_as_direct id sameEndpointRouter 0 (testRequest "POST" "/test" "DELETE")
      "DELETE" rfl rfl (by decide) (by decide) (Or.inr ⟨_, rfl⟩)).2.1 (Or.inl ⟨_, rfl⟩),
    by decide, by decide,
    ((C6_override_answers_as_direct id postOnlyRouter 0 (testRequest "POST" "/widgets" "DELETE")
      "DELETE" rfl rfl (by decide) (by decide) (Or.inr ⟨_, rfl⟩)).2.2 rfl).2 rfl rfl⟩

/-- C6 as stated fails where the path has a route for the override verb and none for
POST: `DELETE /widgets` is registered with a handler that writes "ok" without
setting a status.  `POST /widgets` with override DELETE reaches that handler and
is answered 404 "ok"; `DELETE /widgets` reaches it and is answered 200 "ok". -/
theorem C6_status_differs_without_post_route :
    (widgetsRouter.ServeHTTP id 2 (testRequest "POST" "/widgets" "DELETE")).Writer =
        { status := 404, size := 2, sentStatus := some 404, sentBody := "ok" } ∧
      (widgetsRouter.ServeHTTP id 2 (testRequest "DELETE" "/widgets" "DELETE")).Writer =
        { status := 200, size := 2, sentStatus := some 200, sentBody := "ok" } := by
  decide

/-- The trailing-slash redirect comes before the filter: on a router with the one
route `POST /widgets`, `POST /widgets/` with override DELETE is answered 307 and
its method stays POST, while `DELETE /widgets/` is answered 404. -/
theorem trailing_slash_redirect_precedes_filter :
    (postOnlyRouter.ServeHTTP id 2 (testRequest "POST" "/widgets/" "DELETE")).Writer.sentStatus =
        some 307 ∧
      ((postOnlyRouter.ServeHTTP id 2 (testRequest "POST" "/widgets/" "DELETE")).Request.map
        fun q => (q.Method, q.URL)) = some ("POST", "/widgets") ∧
      (postOnlyRouter.ServeHTTP id 2 (testRequest "DELETE" "/widgets/" "DELETE")).Writer.sentStatus =
        some 404 := by
  decide

/-- The value a step attaches under a key is what a later `Get` of the key finds. -/
theorem Get_Set (c : gin.Context) (key value : String) :
    (c.Set key value).Get key = some value := by
  simp [gin.Context.Set, gin.Context.Get, List.lookup]

/-- C10, as amended: the re-dispatch resets the keys, and the steps of the chain run
again.  On an overridden POST request, whatever keys the context carries when the
filter runs, the nested dispatch starts on a context `c0` with the request of
method `V` and no keys: a value attached before the re-dispatch does not survive
it.  The steps installed after the filter run on `c0` inside the nested dispatch
and give `c1`, the first handler `h` of the route for `V` is applied to `c1`
itself, and nothing of the aborted outer chain runs after the route's handlers.
So a step that attaches `value` under `key` on every request, the last of the
steps here, makes it visible to the final handler: `c1.Get key = some value`. -/
theorem C10_keys_are_reset_and_set_again (caseRanges : Char → Char) (e : gin.Router)
    (n : Nat) (req : http.Request) (V : String) (h : gin.HandlerFunc)
    (rest pre : List gin.HandlerFunc) (key value : String)
    (hfirst : e.before = [])
    (hpost : req.Method = "POST")
    (hV : V ∈ ["GET", "PATCH", "PUT", "DELETE", "HEAD", "OPTIONS", "CONNECT", "TRACE"])
    (hup : strings.ToUpper caseRanges
      (http.Header.Get req.Header XHTTPMethodOverrideHeader) = V)
    (hreach : e.route "POST" (http.urlPath req.URL) = .notFound ∨
      ∃ handlers, e.route "POST" (http.urlPath req.URL) = .found handlers)
    (hroute : e.route V (http.urlPath req.URL) = .found (h :: rest))
    (hsteps : e.Handlers = pre ++ [fun c => c.Set key value])
    (hrun : ∀ w : gin.responseWriter,
      (gin.Context.Next pre
        { Request := some { req with Method := V }, Writer := w, index := -1,
          Keys := [] }).IsAborted = false) :
    (∀ (dispatch : gin.Context → gin.Context) (c : gin.Context), c.Request = some req →
      filterHandler caseRanges ⟨gin.HandleContext dispatch⟩ c =
        { dispatch { Request := some { req with Method := V }, Writer := c.Writer,
                     index := -1, Keys := [] } with index := gin.abortIndex }) ∧
    ∃ c0 c1 : gin.Context,
      c0.Request = some { req with Method := V } ∧ c0.Keys = [] ∧ c0.index = -1 ∧
      c1 = gin.Context.Next e.Handlers c0 ∧
      c1.Get key = some value ∧
      outcome (e.ServeHTTP caseRanges (n + 2) req) =
        outcome { gin.Context.Next rest (h c1) with
          Writer := (gin.Context.Next rest (h c1)).Writer.WriteHeaderNow } := by
  have hVp := ne_post_of_mem V hV
  refine ⟨fun dispatch c hc =>
    filterHandler_of_override caseRanges dispatch c req V hc hpost hV hup, ?_⟩
  have hc1 : ∀ c0 : gin.Context,
      (gin.Context.Next pre c0).IsAborted = false →
      gin.Context.Next e.Handlers c0 = (gin.Context.Next pre c0).Set key value := by
    intro c0 h0
    rw [hsteps, Next_append, gin.Context.Next]
    simp only [h0, Bool.false_eq_true, if_false]
    rfl
  refine ⟨{ Request := some { req with Method := V }
            Writer := { gin.responseWriter.reset with
              status :=
                match e.route "POST" (http.urlPath req.URL) with
                | .found _ => 200
                | _ => 404 }
            index := -1, Keys := [] }, _, rfl, rfl, rfl, rfl, ?_, ?_⟩
  · rw [hc1 _ (hrun _)]
    exact Get_Set _ _ _
  · rw [ServeHTTP_of_override caseRanges e n req V hfirst hpost hV hup hreach,
      handleHTTPRequest_of_not_post caseRanges e n _ { req with Method := V } hfirst rfl hVp]
    simp only [hroute, Next_append]
    have hab : (gin.Context.Next e.Handlers
        { Request := some { req with Method := V }
          Writer := { gin.responseWriter.reset with
            status :=
              match e.route "POST" (http.urlPath req.URL) with
              | .found _ => 200
              | _ => 404 }
          index := -1, Keys := [] }).IsAborted = false := by
      rw [hc1 _ (hrun _)]
      exact hrun _
    rw [gin.Context.Next]
    simp only [hab, Bool.false_eq_true, if_false]
    rfl

/-- C10 as amended, on the router of `TestNew/MiddlewaresSideEffects` at
`POST /delete` with override DELETE: `newMiddlewares` runs in the nested dispatch
and the handler answers 200 with the key "test". -/
theorem C10_keys_are_reset_and_set_again_witness :
    (∃ c0 c1 : gin.Context,
      c0.Request = some { testRequest "POST" "/delete" "DELETE" with Method := "DELETE" } ∧
      c0.Keys = [] ∧ c0.index = -1 ∧
      c1 = gin.Context.Next sideEffectsRouter.Handlers c0 ∧
      c1.Get "test_key" = some "test" ∧
      outcome (sideEffectsRouter.ServeHTTP id 2 (testRequest "POST" "/delete" "DELETE")) =
        outcome { gin.Context.Next [] (keyHandler c1) with
          Writer := (gin.Context.Next [] (keyHandler c1)).Writer.WriteHeaderNow }) ∧
    (sideEffectsRouter.ServeHTTP id 2
        (testRequest "POST" "/delete" "DELETE")).Writer.sentStatus = some 200 ∧
    (sideEffectsRouter.ServeHTTP id 2
        (testRequest "POST" "/delete" "DELETE")).Writer.sentBody =
      jsonObject [("key", "test"), ("method", "DELETE"), ("override", "DELETE")] :=
  ⟨(C10_keys_are_reset_and_set_again id sideEffectsRouter 0
      (testRequest "POST" "/delete" "DELETE") "DELETE" keyHandler [] [] "test_key" "test"
      rfl rfl (by decide) (by decide) (Or.inl rfl) rfl rfl (fun _ => rfl)).2,
    by decide, by decide⟩

/-- C10 as stated fails for a value attached before the re-dispatch: on a router
whose first step attaches "test_key" = "test" to the requests arriving as POST,
`POST /delete` with override DELETE has the key attached when the filter runs,
and the final handler, reached through the re-dispatch, answers with an empty
key: the value did not survive. -/
theorem C10_key_set_before_redispatch_is_lost :
    (gin.Context.Next markPostRouter.before
        (testContext (testRequest "POST" "/delete" "DELETE"))).Get "test_key" = some "test" ∧
    (markPostRouter.ServeHTTP id 2
        (testRequest "POST" "/delete" "DELETE")).Writer.sentStatus = some 200 ∧
    (markPostRouter.ServeHTTP id 2
        (testRequest "POST" "/delete" "DELETE")).Writer.sentBody =
      jsonObject [("key", ""), ("method", "DELETE"), ("override", "DELETE")] ∧
    (markPostRouter.ServeHTTP id 2 (testRequest "POST" "/delete" "DELETE")).Get "test_key" =
      none := by
  decide

/-! ## Letters and their case -/

/-- Lowering an upper-case ASCII letter adds 32 to its number. -/
theorem toLower_of_upper (a : Char) (h : 65 ≤ a.toNat ∧ a.toNat ≤ 90) :
    a.toLower = Char.ofNat (a.toNat + 32) := by
  unfold Char.toLower
  simp [h]

/-- Lowering leaves every other character as it is. -/
theorem toLower_of_not_upper (a : Char) (h : ¬ (65 ≤ a.toNat ∧ a.toNat ≤ 90)) :
    a.toLower = a := by
  unfold Char.toLower
  simp only [ge_iff_le]
  rw [if_neg h]

/-- The ASCII upper-casing of a lower-case letter subtracts 32 from its number. -/
theorem upperASCII_of_lower (a : Char) (h : 97 ≤ a.toNat ∧ a.toNat ≤ 122) :
    strings.upperASCII a = Char.ofNat (a.toNat - 32) := by
  unfold strings.upperASCII
  rw [if_pos]
  exact h

/-- The ASCII upper-casing leaves every other character as it is. -/
theorem upperASCII_of_not_lower (a : Char) (h : ¬ (97 ≤ a.toNat ∧ a.toNat ≤ 122)) :
    strings.upperASCII a = a := by
  unfold strings.upperASCII
  rw [if_neg]
  exact h

/-- The ASCII upper-casing sees the letter, not its case. -/
theorem upperASCII_toLower (a : Char) :
    strings.upperASCII a.toLower = strings.upperASCII a := by
  by_cases h : 65 ≤ a.toNat ∧ a.toNat ≤ 90
  · rw [toLower_of_upper a h]
    have h1 : (Char.ofNat (a.toNat + 32)).toNat = a.toNat + 32 :=
      toNat_ofNat_small _ (by omega)
    rw [upperASCII_of_lower _ (by omega), h1, Nat.add_sub_cancel, Char.ofNat_toNat,
      upperASCII_of_not_lower a (by omega)]
  · rw [toLower_of_not_upper a h]

/-- Lowering sees the letter, not its case. -/
theorem toLower_upperASCII (a : Char) : (strings.upperASCII a).toLower = a.toLower := by
  by_cases h : 97 ≤ a.toNat ∧ a.toNat ≤ 122
  · rw [upperASCII_of_lower a h]
    have h1 : (Char.ofNat (a.toNat - 32)).toNat = a.toNat - 32 :=
      toNat_ofNat_small _ (by omega)
    rw [toLower_of_upper _ (by omega), h1, toLower_of_not_upper a (by omega)]
    have h2 : a.toNat - 32 + 32 = a.toNat := by omega
    rw [h2, Char.ofNat_toNat]
  · rw [upperASCII_of_not_lower a h]

/-- On an all-ASCII string `strings.ToUpper` is the ASCII upper-casing of each
character, whatever the Unicode table. -/
theorem ToUpper_ascii (caseRanges : Char → Char) (s : String)
    (h : ∀ c ∈ s.data, c.toNat < 128) :
    strings.ToUpper caseRanges s = ⟨s.data.map strings.upperASCII⟩ := by
  have h1 : s.data.all (fun c => decide (c.toNat < 0x80)) = true := by
    simpa using h
  unfold strings.ToUpper
  simp only [h1, if_true]
  split_ifs with h2
  · simp only [Bool.not_eq_true', List.any_eq_false, decide_eq_true_eq] at h2
    have h3 : s.data.map strings.upperASCII = s.data := by
      conv_rhs => rw [← List.map_id s.data]
      apply List.map_congr_left
      intro a ha
      exact upperASCII_of_not_lower a (h2 a ha)
    rw [h3]
  · rfl

/-- A string that reads as the upper-case ASCII word `W` once letters are lowered is
uppercased to `W` by `strings.ToUpper`, whatever the Unicode table. -/
theorem ToUpper_of_variant (caseRanges : Char → Char) (v W : String)
    (hW : ∀ c ∈ W.data, 65 ≤ c.toNat ∧ c.toNat ≤ 90)
    (hv : v.data.map Char.toLower = W.data.map Char.toLower) :
    strings.ToUpper caseRanges v = W := by
  have hascii : ∀ c ∈ v.data, c.toNat < 128 := by
    intro a ha
    have h1 : a.toLower ∈ W.data.map Char.toLower := by
      rw [← hv]
      exact List.mem_map_of_mem _ ha
    obtain ⟨b, hb, hab⟩ := List.mem_map.1 h1
    have hb2 := hW b hb
    by_cases hu : 65 ≤ a.toNat ∧ a.toNat ≤ 90
    · omega
    · rw [toLower_of_not_upper a hu, toLower_of_upper b hb2] at hab
      have h2 : a.toNat = b.toNat + 32 := by
        rw [← hab]
        exact toNat_ofNat_small _ (by omega)
      omega
  rw [ToUpper_ascii caseRanges v hascii]
  have h1 : v.data.map strings.upperASCII = (v.data.map Char.toLower).map strings.upperASCII := by
    rw [List.map_map]
    apply List.map_congr_left
    intro a _
    exact (upperASCII_toLower a).symm
  have h2 : (W.data.map Char.toLower).map strings.upperASCII = W.data := by
    rw [List.map_map]
    conv_rhs => rw [← List.map_id W.data]
    apply List.map_congr_left
    intro b hb
    have hb2 := hW b hb
    simp only [Function.comp_apply, id_eq]
    rw [upperASCII_toLower, upperASCII_of_not_lower b (by omega)]
  rw [h1, hv, h2]

/-- An all-ASCII string that `strings.ToUpper` maps to `W` reads as `W` once letters
are lowered. -/
theorem variant_of_ToUpper_ascii (caseRanges : Char → Char) (v W : String)
    (hascii : ∀ c ∈ v.data, c.toNat < 128)
    (h : strings.ToUpper caseRanges v = W) :
    v.data.map Char.toLower = W.data.map Char.toLower := by
  rw [ToUpper_ascii caseRanges v hascii] at h
  rw [← h]
  simp only [List.map_map]
  apply List.map_congr_left
  intro a _
  exact (toLower_upperASCII a).symm

/-- The nine method constants are written in upper-case ASCII letters. -/
theorem upper_of_mem_methods (V : String)
    (hV : V ∈ ["GET", "POST", "PATCH", "PUT", "DELETE", "HEAD", "OPTIONS", "CONNECT", "TRACE"]) :
    ∀ c ∈ V.data, 65 ≤ c.toNat ∧ c.toNat ≤ 90 := by
  simp only [List.mem_cons, List.mem_singleton, List.not_mem_nil, or_false] at hV
  rcases hV with rfl | rfl | rfl | rfl | rfl | rfl | rfl | rfl | rfl <;> decide

/-- The eight verbs the filter overrides to are among the nine constants. -/
theorem mem_methods_of_mem (V : String)
    (hV : V ∈ ["GET", "PATCH", "PUT", "DELETE", "HEAD", "OPTIONS", "CONNECT", "TRACE"]) :
    V ∈ ["GET", "POST", "PATCH", "PUT", "DELETE", "HEAD", "OPTIONS", "CONNECT", "TRACE"] := by
  simp only [List.mem_cons, List.mem_singleton, List.not_mem_nil, or_false] at hV ⊢
  tauto

/-- C11, as amended: on a POST request the filter changes the method exactly when
`strings.ToUpper` of the override value is one of GET, PATCH, PUT, DELETE, HEAD,
OPTIONS, CONNECT, TRACE, and then to that verb; otherwise the value is ignored and
the context is returned as it was.  Every upper, lower or mixed case spelling of
one of the verbs is uppercased to it.  For a value of ASCII characters the
converse holds: it is uppercased to one of the nine constants only if it is a
letter-case spelling of it, so an ASCII value that is no letter-case spelling of
any of the nine (extra whitespace included) is ignored. -/
theorem C11_recognized_set_is_closed_on_ascii (caseRanges : Char → Char) (r : gin.Engine)
    (c : gin.Context) (req : http.Request)
    (hreq : c.Request = some req) (hpost : req.Method = "POST") :
    ((∃ V, V ∈ ["GET", "PATCH", "PUT", "DELETE", "HEAD", "OPTIONS", "CONNECT", "TRACE"] ∧
        strings.ToUpper caseRanges
          (http.Header.Get req.Header XHTTPMethodOverrideHeader) = V ∧
        overrideMethod caseRanges r c =
          .ok (r.HandleContext
                { c with Request := some { req with Method := V }, index := gin.abortIndex },
              [Call.setMethod V, Call.Abort,
                Call.HandleContext
                  { c with Request := some { req with Method := V },
                           index := gin.abortIndex }])) ∨
      (strings.ToUpper caseRanges (http.Header.Get req.Header XHTTPMethodOverrideHeader) ∉
          ["GET", "PATCH", "PUT", "DELETE", "HEAD", "OPTIONS", "CONNECT", "TRACE"] ∧
        overrideMethod caseRanges r c = .ok (c, []))) ∧
    (∀ V ∈ ["GET", "POST", "PATCH", "PUT", "DELETE", "HEAD", "OPTIONS", "CONNECT", "TRACE"],
      (http.Header.Get req.Header XHTTPMethodOverrideHeader).data.map Char.toLower =
          V.data.map Char.toLower →
        strings.ToUpper caseRanges
          (http.Header.Get req.Header XHTTPMethodOverrideHeader) = V) ∧
    ((∀ ch ∈ (http.Header.Get req.Header XHTTPMethodOverrideHeader).data, ch.toNat < 128) →
      ∀ V ∈ ["GET", "POST", "PATCH", "PUT", "DELETE", "HEAD", "OPTIONS", "CONNECT", "TRACE"],
        strings.ToUpper caseRanges
            (http.Header.Get req.Header XHTTPMethodOverrideHeader) = V →
          (http.Header.Get req.Header XHTTPMethodOverrideHeader).data.map Char.toLower =
            V.data.map Char.toLower) ∧
    ((∀ ch ∈ (http.Header.Get req.Header XHTTPMethodOverrideHeader).data, ch.toNat < 128) →
      (∀ V ∈ ["GET", "POST", "PATCH", "PUT", "DELETE", "HEAD", "OPTIONS", "CONNECT", "TRACE"],
        (http.Header.Get req.Header XHTTPMethodOverrideHeader).data.map Char.toLower ≠
          V.data.map Char.toLower) →
      overrideMethod caseRanges r c = .ok (c, [])) := by
  have hcases :
      (∃ V, V ∈ ["GET", "PATCH", "PUT", "DELETE", "HEAD", "OPTIONS", "CONNECT", "TRACE"] ∧
        strings.ToUpper caseRanges
          (http.Header.Get req.Header XHTTPMethodOverrideHeader) = V ∧
        overrideMethod caseRanges r c =
          .ok (r.HandleContext
                { c with Request := some { req with Method := V }, index := gin.abortIndex },
              [Call.setMethod V, Call.Abort,
                Call.HandleContext
                  { c with Request := some { req with Method := V },
                           index := gin.abortIndex }])) ∨
      (strings.ToUpper caseRanges (http.Header.Get req.Header XHTTPMethodOverrideHeader) ∉
          ["GET", "PATCH", "PUT", "DELETE", "HEAD", "OPTIONS", "CONNECT", "TRACE"] ∧
        overrideMethod caseRanges r c = .ok (c, [])) := by
    by_cases hmem : strings.ToUpper caseRanges
        (http.Header.Get req.Header XHTTPMethodOverrideHeader) ∈
        ["GET", "PATCH", "PUT", "DELETE", "HEAD", "OPTIONS", "CONNECT", "TRACE"]
    · exact Or.inl ⟨_, hmem, rfl,
        overrideMethod_of_override caseRanges r c req _ hreq hpost hmem rfl⟩
    · refine Or.inr ⟨hmem, ?_⟩
      rcases overrideMethod_outcomes caseRanges r c with h | ⟨req2, V, hreq2, _, _, hV, hup, _⟩
      · exact h
      · rw [hreq] at hreq2
        cases hreq2
        rw [hup] at hmem
        exact absurd hV hmem
  refine ⟨hcases, ?_, ?_, ?_⟩
  · intro V hV hv
    exact ToUpper_of_variant caseRanges _ V (upper_of_mem_methods V hV) hv
  · intro hascii V _ hup
    exact variant_of_ToUpper_ascii caseRanges _ V hascii hup
  · intro hascii hno
    rcases hcases with ⟨V, hV, hup, _⟩ | ⟨_, h⟩
    · exact absurd (variant_of_ToUpper_ascii caseRanges _ V hascii hup)
        (hno V (mem_methods_of_mem V hV))
    · exact h

/-- C11 as amended, at `POST /widgets` with the override value "get " (ASCII, with a
trailing space), which is no letter-case spelling of any of the nine verbs and is
ignored, and with the value "pAtCh", which is uppercased to PATCH. -/
theorem C11_recognized_set_is_closed_on_ascii_witness :
    overrideMethod id markingEngine (testContext (testRequest "POST" "/widgets" "get ")) =
        .ok (testContext (testRequest "POST" "/widgets" "get "), []) ∧
      strings.ToUpper id
        (http.Header.Get (testRequest "POST" "/widgets" "pAtCh").Header
          XHTTPMethodOverrideHeader) = "PATCH" :=
  ⟨(C11_recognized_set_is_closed_on_ascii id markingEngine
      (testContext (testRequest "POST" "/widgets" "get ")) (testRequest "POST" "/widgets" "get ")
      rfl rfl).2.2.2 (by decide) (by decide),
    (C11_recognized_set_is_closed_on_ascii id markingEngine
      (testContext (testRequest "POST" "/widgets" "pAtCh"))
      (testRequest "POST" "/widgets" "pAtCh") rfl rfl).2.1 "PATCH" (by decide) (by decide)⟩

/-- C11 as stated fails on a value with a non-ASCII letter: "opt\u0131ons", written with
the dotless i (U+0131), is no letter-case spelling of any of the nine verbs, and
the filter, with Go's upper case of the dotless i, changes the method of the POST
request to OPTIONS and re-dispatches. -/
theorem C11_dotless_i_is_recognized :
    (∀ V ∈ ["GET", "POST", "PATCH", "PUT", "DELETE", "HEAD", "OPTIONS", "CONNECT", "TRACE"],
      "opt\u0131ons".data.map Char.toLower ≠ V.data.map Char.toLower) ∧
    http.Header.Get (testRequest "POST" "/options" "opt\u0131ons").Header
      XHTTPMethodOverrideHeader = "opt\u0131ons" ∧
    overrideMethod caseRangesFragment markingEngine
        (testContext (testRequest "POST" "/options" "opt\u0131ons")) =
      .ok (markingEngine.HandleContext
            { testContext (testRequest "POST" "/options" "opt\u0131ons") with
              Request := some { testRequest "POST" "/options" "opt\u0131ons" with
                                Method := "OPTIONS" }
              index := gin.abortIndex },
          [Call.setMethod "OPTIONS", Call.Abort,
            Call.HandleContext
              { testContext (testRequest "POST" "/options" "opt\u0131ons") with
                Request := some { testRequest "POST" "/options" "opt\u0131ons" with
                                  Method := "OPTIONS" }
                index := gin.abortIndex }]) :=
  ⟨by decide, by decide,
    overrideMethod_of_override caseRangesFragment markingEngine _
      (testRequest "POST" "/options" "opt\u0131ons") "OPTIONS" rfl rfl (by decide) (by decide)⟩

/-! ## The header name -/

/-- `Char.isUpper` in terms of the character's number. -/
theorem isUpper_iff (a : Char) : a.isUpper = true ↔ 65 ≤ a.toNat ∧ a.toNat ≤ 90 := by
  simp only [Char.isUpper, Bool.and_eq_true, decide_eq_true_eq, ge_iff_le]
  exact Iff.rfl

/-- `Char.isLower` in terms of the character's number. -/
theorem isLower_iff (a : Char) : a.isLower = true ↔ 97 ≤ a.toNat ∧ a.toNat ≤ 122 := by
  simp only [Char.isLower, Bool.and_eq_true, decide_eq_true_eq, ge_iff_le]
  exact Iff.rfl

/-- The two ASCII lower-casings agree. -/
theorem lowerASCII_eq_toLower (a : Char) : strings.lowerASCII a = a.toLower := by
  unfold strings.lowerASCII Char.toLower
  rfl

/-- Whether a character may stand in a header name does not depend on its case. -/
theorem validHeaderFieldByte_toLower (a : Char) :
    textproto.validHeaderFieldByte a.toLower = textproto.validHeaderFieldByte a := by
  by_cases h : 65 ≤ a.toNat ∧ a.toNat ≤ 90
  · have h1 : (Char.ofNat (a.toNat + 32)).toNat = a.toNat + 32 :=
      toNat_ofNat_small _ (by omega)
    have hl : a.toLower.isLower = true := by
      rw [isLower_iff, toLower_of_upper a h, h1]
      omega
    have hu : a.isUpper = true := (isUpper_iff a).2 h
    simp [textproto.validHeaderFieldByte, Char.isAlphanum, Char.isAlpha, hl, hu]
  · rw [toLower_of_not_upper a h]

/-- The canonicalising loop gives the same result on a name and on the name with
its letters lowered. -/
theorem canonicalLoop_toLower (b : Bool) (l : List Char) :
    textproto.canonicalLoop b l = textproto.canonicalLoop b (l.map Char.toLower) := by
  induction l generalizing b with
  | nil => rfl
  | cons a rest ih =>
    have hstep :
        (if b && decide ('a' ≤ a ∧ a ≤ 'z') then strings.upperASCII a
          else if !b && decide ('A' ≤ a ∧ a ≤ 'Z') then strings.lowerASCII a else a) =
        (if b && decide ('a' ≤ a.toLower ∧ a.toLower ≤ 'z') then strings.upperASCII a.toLower
          else if !b && decide ('A' ≤ a.toLower ∧ a.toLower ≤ 'Z') then
            strings.lowerASCII a.toLower
          else a.toLower) := by
      by_cases h : 65 ≤ a.toNat ∧ a.toNat ≤ 90
      · have h1 : (Char.ofNat (a.toNat + 32)).toNat = a.toNat + 32 :=
          toNat_ofNat_small _ (by omega)
        have hl : 97 ≤ a.toLower.toNat ∧ a.toLower.toNat ≤ 122 := by
          rw [toLower_of_upper a h, h1]
          omega
        have e1 : ('a' ≤ a ∧ a ≤ 'z') ↔ False := by
          constructor
          · intro hh
            have h2 : 97 ≤ a.toNat := hh.1
            omega
          · exact False.elim
        have e2 : ('A' ≤ a ∧ a ≤ 'Z') ↔ True := ⟨fun _ => trivial, fun _ => h⟩
        have e3 : ('a' ≤ a.toLower ∧ a.toLower ≤ 'z') ↔ True :=
          ⟨fun _ => trivial, fun _ => hl⟩
        have e4 : ('A' ≤ a.toLower ∧ a.toLower ≤ 'Z') ↔ False := by
          constructor
          · intro hh
            have h2 : a.toLower.toNat ≤ 90 := hh.2
            omega
          · exact False.elim
        simp only [e1, e2, e3, e4, decide_True, decide_False, Bool.and_true, Bool.and_false]
        cases b
        · simp [lowerASCII_eq_toLower]
        · simp [upperASCII_toLower, upperASCII_of_not_lower a (by omega)]
      · rw [toLower_of_not_upper a h]
    simp only [textproto.canonicalLoop, List.map_cons]
    rw [hstep, ih]

/-- Two names that agree once letters are lowered are both header names or both
not. -/
theorem all_validHeaderFieldByte_congr (l1 l2 : List Char)
    (h : l1.map Char.toLower = l2.map Char.toLower) :
    l1.all textproto.validHeaderFieldByte = l2.all textproto.validHeaderFieldByte := by
  have e : ∀ l : List Char, l.all textproto.validHeaderFieldByte =
      (l.map Char.toLower).all textproto.validHeaderFieldByte := by
    intro l
    rw [List.all_map]
    congr 1
    funext a
    exact (validHeaderFieldByte_toLower a).symm
  rw [e l1, e l2, h]

/-- Two spellings of a header name that differ in letter case only have the same
canonical form. -/
theorem CanonicalMIMEHeaderKey_congr (s t : String)
    (h : s.data.map Char.toLower = t.data.map Char.toLower)
    (ht : t.data.all textproto.validHeaderFieldByte = true) :
    textproto.CanonicalMIMEHeaderKey s = textproto.CanonicalMIMEHeaderKey t := by
  have hs : s.data.all textproto.validHeaderFieldByte = true := by
    rw [all_validHeaderFieldByte_congr _ _ h, ht]
  unfold textproto.CanonicalMIMEHeaderKey
  rw [hs, ht]
  simp only [if_true]
  rw [canonicalLoop_toLower true s.data, canonicalLoop_toLower true t.data, h]

/-- The third guard: without a value under the canonical key the request is passed
through. -/
theorem overrideMethod_of_no_value (caseRanges : Char → Char) (r : gin.Engine)
    (c : gin.Context) (req : http.Request)
    (hreq : c.Request = some req)
    (hget : http.Header.Get req.Header XHTTPMethodOverrideHeader = "") :
    overrideMethod caseRanges r c = .ok (c, []) := by
  rw [overrideMethod_some caseRanges r c req hreq]
  simp [hget]

/-- C12, as amended: the header is looked up under the canonical form of its name,
"X-Http-Method-Override".  Every spelling `name` that differs from
"X-HTTP-Method-Override" in letter case only has this canonical form, `Header.Get`
answers the same for both spellings on every header map, and a value stored under
`name` through `Header.Set` gives the same header map as the value stored under
"X-HTTP-Method-Override": the filter reads it, and on a POST request a recognized
value is applied.  Of a header map written directly, only the entry whose key
is exactly "X-Http-Method-Override" is read: without it a POST request is passed
through, whatever other spellings the map holds. -/
theorem C12_header_name_is_canonicalised (caseRanges : Char → Char) (r : gin.Engine)
    (c : gin.Context) (req : http.Request) (m : http.Header) (name value : String)
    (hname : name.data.map Char.toLower = XHTTPMethodOverrideHeader.data.map Char.toLower)
    (hreq : c.Request = some req)
    (hhdr : req.Header = some (http.Header.Set m name value)) :
    textproto.CanonicalMIMEHeaderKey name = "X-Http-Method-Override" ∧
      http.Header.Set m name value = http.Header.Set m XHTTPMethodOverrideHeader value ∧
      http.Header.Get req.Header XHTTPMethodOverrideHeader = value ∧
      (∀ h : Option http.Header,
        http.Header.Get h name = http.Header.Get h XHTTPMethodOverrideHeader) ∧
      (∀ V ∈ ["GET", "PATCH", "PUT", "DELETE", "HEAD", "OPTIONS", "CONNECT", "TRACE"],
        req.Method = "POST" → strings.ToUpper caseRanges value = V →
        overrideMethod caseRanges r c =
          .ok (r.HandleContext
                { c with Request := some { req with Method := V }, index := gin.abortIndex },
              [Call.setMethod V, Call.Abort,
                Call.HandleContext
                  { c with Request := some { req with Method := V },
                           index := gin.abortIndex }])) ∧
      (∀ raw : http.Header,
        http.Header.Get (some raw) XHTTPMethodOverrideHeader =
          match raw.lookup "X-Http-Method-Override" with
          | some (v :: _) => v
          | _ => "") ∧
      (∀ (raw : http.Header) (c2 : gin.Context) (req2 : http.Request),
        c2.Request = some req2 → req2.Header = some raw →
        raw.lookup "X-Http-Method-Override" = none →
        overrideMethod caseRanges r c2 = .ok (c2, [])) := by
  have hX : textproto.CanonicalMIMEHeaderKey XHTTPMethodOverrideHeader =
      "X-Http-Method-Override" := by decide
  have hcanon := CanonicalMIMEHeaderKey_congr name XHTTPMethodOverrideHeader hname (by decide)
  have hget : http.Header.Get req.Header XHTTPMethodOverrideHeader = value := by
    rw [hhdr]
    simp [http.Header.Get, http.Header.Set, hcanon]
  have hraw : ∀ raw : http.Header,
      http.Header.Get (some raw) XHTTPMethodOverrideHeader =
        match raw.lookup "X-Http-Method-Override" with
        | some (v :: _) => v
        | _ => "" := by
    intro raw
    simp only [http.Header.Get, hX]
  refine ⟨by rw [hcanon, hX], ?_, hget, ?_, ?_, hraw, ?_⟩
  · simp only [http.Header.Set, hcanon]
  · intro h
    simp only [http.Header.Get, hcanon]
  · intro V hV hpost hup
    exact overrideMethod_of_override caseRanges r c req V hreq hpost hV (by rw [hget]; exact hup)
  · intro raw c2 req2 h2 hh hnone
    apply overrideMethod_of_no_value caseRanges r c2 req2 h2
    rw [hh, hraw raw, hnone]

/-- C12 as amended, at `POST /widgets` with the value "delete" stored through
`Header.Set` under the name "x-http-method-override": the value is read and the
method overridden to DELETE. -/
theorem C12_header_name_is_canonicalised_witness :
    http.Header.Get (testRequestNamed "x-http-method-override" "POST" "/widgets" "delete").Header
        XHTTPMethodOverrideHeader = "delete" ∧
      overrideMethod id markingEngine
          (testContext (testRequestNamed "x-http-method-override" "POST" "/widgets" "delete")) =
        .ok (markingEngine.HandleContext
              { testContext
                  (testRequestNamed "x-http-method-override" "POST" "/widgets" "delete") with
                Request := some
                  { testRequestNamed "x-http-method-override" "POST" "/widgets" "delete" with
                    Method := "DELETE" }
                index := gin.abortIndex },
            [Call.setMethod "DELETE", Call.Abort,
              Call.HandleContext
                { testContext
                    (testRequestNamed "x-http-method-override" "POST" "/widgets" "delete") with
                  Request := some
                    { testRequestNamed "x-http-method-override" "POST" "/widgets" "delete" with
                      Method := "DELETE" }
                  index := gin.abortIndex }]) :=
  ⟨(C12_header_name_is_canonicalised id markingEngine
      (testContext (testRequestNamed "x-http-method-override" "POST" "/widgets" "delete"))
      (testRequestNamed "x-http-method-override" "POST" "/widgets" "delete")
      [] "x-http-method-override" "delete" (by decide) rfl rfl).2.2.1,
    (C12_header_name_is_canonicalised id markingEngine _
      (testRequestNamed "x-http-method-override" "POST" "/widgets" "delete")
      [] "x-http-method-override" "delete" (by decide) rfl rfl).2.2.2.2.1 "DELETE" (by decide)
      rfl (by decide)⟩

/-- C12 as stated fails on a header map written directly.  The name
"x-http-method-override" differs from "X-HTTP-Method-Override" in letter case
only, yet the value DELETE stored under it is not read and the POST request is
passed through; the same holds for the key "X-HTTP-Method-Override" itself; under
the key "X-Http-Method-Override" the value is read and the method overridden. -/
theorem C12_raw_entry_is_not_read :
    "x-http-method-override".data.map Char.toLower =
        XHTTPMethodOverrideHeader.data.map Char.toLower ∧
    http.Header.Get (rawHeaderRequest "x-http-method-override").Header
        XHTTPMethodOverrideHeader = "" ∧
    overrideMethod id markingEngine (testContext (rawHeaderRequest "x-http-method-override")) =
        .ok (testContext (rawHeaderRequest "x-http-method-override"), []) ∧
    overrideMethod id markingEngine (testContext (rawHeaderRequest "X-HTTP-Method-Override")) =
        .ok (testContext (rawHeaderRequest "X-HTTP-Method-Override"), []) ∧
    overrideMethod id markingEngine (testContext (rawHeaderRequest "X-Http-Method-Override")) =
        .ok (markingEngine.HandleContext
              { testContext (rawHeaderRequest "X-Http-Method-Override") with
                Request := some { rawHeaderRequest "X-Http-Method-Override" with
                                  Method := "DELETE" }
                index := gin.abortIndex },
            [Call.setMethod "DELETE", Call.Abort,
              Call.HandleContext
                { testContext (rawHeaderRequest "X-Http-Method-Override") with
                  Request := some { rawHeaderRequest "X-Http-Method-Override" with
                                    Method := "DELETE" }
                  index := gin.abortIndex }]) :=
  ⟨by decide, by decide,
    overrideMethod_of_no_value id markingEngine _ (rawHeaderRequest "x-http-method-override")
      rfl (by decide),
    overrideMethod_of_no_value id markingEngine _ (rawHeaderRequest "X-HTTP-Method-Override")
      rfl (by decide),
    overrideMethod_of_override id markingEngine _ (rawHeaderRequest "X-Http-Method-Override")
      "DELETE" rfl rfl (by decide) (by decide)⟩

/-! ## Order, dependence and the unreachable case -/

/-- C13: when the filter overrides, its effects come in one order: the method is
written, then the chain is aborted, then the dispatcher is called.  The calls are
exactly `setMethod V`, `Abort`, `HandleContext c2` in this order, and the context
`c2` the dispatcher receives already carries the method `V`, which is not "POST",
and the abort mark; no context is handed to the dispatcher without both. -/
theorem C13_write_then_abort_then_dispatch (caseRanges : Char → Char) (r : gin.Engine)
    (c : gin.Context) :
    ∃ c1 calls, overrideMethod caseRanges r c = .ok (c1, calls) ∧
      ((calls = [] ∧ c1 = c) ∨
        ∃ V c2, calls = [Call.setMethod V, Call.Abort, Call.HandleContext c2] ∧
          V ≠ "POST" ∧ (c2.Request.map fun q => q.Method) = some V ∧
          c2.IsAborted = true ∧ c1 = r.HandleContext c2) ∧
      (∀ c2, Call.HandleContext c2 ∈ calls →
        c2.IsAborted = true ∧ (c2.Request.map fun q => q.Method) ≠ some "POST") := by
  rcases overrideMethod_outcomes caseRanges r c with h | ⟨req, V, hreq, _, hVp, _, _, h⟩
  · exact ⟨c, [], h, Or.inl ⟨rfl, rfl⟩, by simp⟩
  · have hab : ∀ (q : Option http.Request) (w : gin.responseWriter)
        (k : List (String × String)),
        gin.Context.IsAborted
          { Request := q, Writer := w, index := gin.abortIndex, Keys := k } = true := by
      intro q w k
      simp [gin.Context.IsAborted]
    refine ⟨_, _, h, Or.inr ⟨V, _, rfl, hVp, rfl, hab _ _ _, rfl⟩, ?_⟩
    intro c2 hc2
    simp only [List.mem_cons, List.mem_singleton, reduceCtorEq, false_or,
      Call.HandleContext.injEq, List.not_mem_nil, or_false] at hc2
    subst hc2
    refine ⟨hab _ _ _, ?_⟩
    simp only [Option.map_some', ne_eq, Option.some.injEq]
    exact hVp

/-- C14: the filter's decision depends on the request's method and on the first value
of the override header only.  Two requests that agree on both, on whatever
contexts and with whatever dispatchers, paths and other headers, are both passed
through with no call, or are both overridden to the same verb with the same three
calls. -/
theorem C14_decision_depends_on_method_and_header (caseRanges : Char → Char)
    (r1 r2 : gin.Engine) (c1 c2 : gin.Context) (req1 req2 : http.Request)
    (h1 : c1.Request = some req1) (h2 : c2.Request = some req2)
    (hmethod : req1.Method = req2.Method)
    (hvalue : http.Header.Get req1.Header XHTTPMethodOverrideHeader =
      http.Header.Get req2.Header XHTTPMethodOverrideHeader) :
    (overrideMethod caseRanges r1 c1 = .ok (c1, []) ∧
        overrideMethod caseRanges r2 c2 = .ok (c2, [])) ∨
      ∃ V, V ≠ "POST" ∧
        overrideMethod caseRanges r1 c1 =
          .ok (r1.HandleContext
                { c1 with Request := some { req1 with Method := V }, index := gin.abortIndex },
              [Call.setMethod V, Call.Abort,
                Call.HandleContext
                  { c1 with Request := some { req1 with Method := V },
                            index := gin.abortIndex }]) ∧
        overrideMethod caseRanges r2 c2 =
          .ok (r2.HandleContext
                { c2 with Request := some { req2 with Method := V }, index := gin.abortIndex },
              [Call.setMethod V, Call.Abort,
                Call.HandleContext
                  { c2 with Request := some { req2 with Method := V },
                            index := gin.abortIndex }]) := by
  rcases overrideMethod_outcomes caseRanges r1 c1 with
    h | ⟨q1, V, hq1, hpost, hVp, hV, hup, h⟩
  · left
    refine ⟨h, ?_⟩
    rcases overrideMethod_outcomes caseRanges r2 c2 with
      h' | ⟨q2, V, hq2, hpost, _, hV, hup, _⟩
    · exact h'
    · rw [h2] at hq2
      cases hq2
      have h3 := overrideMethod_of_override caseRanges r1 c1 req1 V h1
        (by rw [hmethod]; exact hpost) hV (by rw [hvalue]; exact hup)
      rw [h] at h3
      simp at h3
  · right
    rw [h1] at hq1
    cases hq1
    exact ⟨V, hVp, h,
      overrideMethod_of_override caseRanges r2 c2 req2 V h2
        (by rw [← hmethod]; exact hpost) hV (by rw [← hvalue]; exact hup)⟩

/-- C14 at two POST requests with the first override value "delete": the request of
the tests to `/test`, and a request to `/elsewhere` with more headers, a second
override value, keys and a pending status.  Both are overridden to DELETE. -/
theorem C14_decision_depends_on_method_and_header_witness :
    ((overrideMethod id markingEngine (testContext (testRequest "POST" "/test" "delete")) =
          .ok (testContext (testRequest "POST" "/test" "delete"), []) ∧
        overrideMethod id ⟨id⟩ otherContext = .ok (otherContext, [])) ∨
      ∃ V, V ≠ "POST" ∧
        overrideMethod id markingEngine (testContext (testRequest "POST" "/test" "delete")) =
          .ok (markingEngine.HandleContext
                { testContext (testRequest "POST" "/test" "delete") with
                  Request := some { testRequest "POST" "/test" "delete" with Method := V }
                  index := gin.abortIndex },
              [Call.setMethod V, Call.Abort,
                Call.HandleContext
                  { testContext (testRequest "POST" "/test" "delete") with
                    Request := some { testRequest "POST" "/test" "delete" with Method := V }
                    index := gin.abortIndex }]) ∧
        overrideMethod id ⟨id⟩ otherContext =
          .ok (id { otherContext with
                    Request := some { otherRequest with Method := V }
                    index := gin.abortIndex },
              [Call.setMethod V, Call.Abort,
                Call.HandleContext
                  { otherContext with
                    Request := some { otherRequest with Method := V }
                    index := gin.abortIndex }])) ∧
    overrideMethod id ⟨id⟩ otherContext =
      .ok ({ otherContext with
              Request := some { otherRequest with Method := "DELETE" }
              index := gin.abortIndex },
          [Call.setMethod "DELETE", Call.Abort,
            Call.HandleContext
              { otherContext with
                Request := some { otherRequest with Method := "DELETE" }
                index := gin.abortIndex }]) :=
  ⟨C14_decision_depends_on_method_and_header id markingEngine ⟨id⟩
      (testContext (testRequest "POST" "/test" "delete")) otherContext
      (testRequest "POST" "/test" "delete") otherRequest rfl rfl rfl (by decide),
    overrideMethod_of_override id ⟨id⟩ otherContext otherRequest "DELETE" rfl rfl
      (by decide) (by decide)⟩

/-- C15: the case `http.MethodPost` of the switch is never taken.  On every request
that gets as far as the switch (request and header map not nil, method "POST",
header value not empty and its upper case different from the method) the switch
does not assign "POST"; and on every context the filter neither writes the
method "POST" nor hands the dispatcher a request whose method is "POST". -/
theorem C15_post_case_unreachable (caseRanges : Char → Char) (r : gin.Engine)
    (c : gin.Context) :
    (∀ req, c.Request = some req → req.Header ≠ none → req.Method = http.MethodPost →
      http.Header.Get req.Header XHTTPMethodOverrideHeader ≠ "" →
      strings.ToUpper caseRanges (http.Header.Get req.Header XHTTPMethodOverrideHeader) ≠
        req.Method →
      strings.ToUpper caseRanges (http.Header.Get req.Header XHTTPMethodOverrideHeader) ≠
          http.MethodPost ∧
        switchMethod
          (strings.ToUpper caseRanges (http.Header.Get req.Header XHTTPMethodOverrideHeader)) ≠
          some http.MethodPost) ∧
    ∃ c1 calls, overrideMethod caseRanges r c = .ok (c1, calls) ∧
      Call.setMethod http.MethodPost ∉ calls ∧
      ∀ c2, Call.HandleContext c2 ∈ calls →
        (c2.Request.map fun q => q.Method) ≠ some http.MethodPost := by
  constructor
  · intro req _ _ hpost _ hne
    rw [hpost] at hne
    refine ⟨hne, ?_⟩
    intro hsw
    exact hne (switchMethod_some _ _ hsw).1.symm
  · rcases overrideMethod_outcomes caseRanges r c with h | ⟨req, V, hreq, _, hVp, _, _, h⟩
    · exact ⟨c, [], h, by simp, by simp⟩
    · refine ⟨_, _, h, ?_, ?_⟩
      · simp only [List.mem_cons, List.mem_singleton, Call.setMethod.injEq, reduceCtorEq,
          List.not_mem_nil, or_false, not_or, not_false_eq_true, and_true]
        exact fun h0 => hVp h0.symm
      · intro c2 hc2
        simp only [List.mem_cons, List.mem_singleton, reduceCtorEq, false_or,
          Call.HandleContext.injEq, List.not_mem_nil, or_false] at hc2
        subst hc2
        simp only [Option.map_some', ne_eq, Option.some.injEq]
        exact hVp

end GinHTTPMethodOverride
